import Mathlib

/-!
# Verification of the undex-sim mesh generator and parser

Shallow embedding of `scripts/generateCutoutMeshFile.py` and
`scripts/parseMeshFile.py`.  Python floats are modelled as exact rationals
(`ℚ`); machine integers as `ℤ`/`ℕ`; Python `range` as `pyRange`; NumPy's
`rint` and Python's `round` (both round-half-to-even) as `rintQ`; Python's
`int()` truncation as `truncQ`; Python dicts keyed by grid indices as a
left-to-right insertion fold (`buildMap`, later insertions override earlier
ones); strings as `List Char`.
-/

namespace UndexSim

/-- A triple of rationals, modelling a Python 3-tuple of floats (x, y, z). -/
abbrev Q3 : Type := ℚ × ℚ × ℚ

/-- The tolerance literal `1e-10` used in `generate_nodes` (divisibility
check) and `generate_elements` (grid snapping). -/
def float_tol : ℚ := 1 / 10 ^ 10

/-- NumPy's default absolute tolerance `1e-08` for `isclose`/`allclose`. -/
def np_atol : ℚ := 1 / 10 ^ 8

/-- NumPy's default relative tolerance `1e-05` for `isclose`/`allclose`. -/
def np_rtol : ℚ := 1 / 10 ^ 5

/-- `np.isclose(a, b)` with default tolerances: `|a - b| <= atol + rtol*|b|`. -/
def np_isclose (a b : ℚ) : Bool := |a - b| ≤ np_atol + np_rtol * |b|

/-- `np.allclose(v, 0)` for a 3-vector: each entry within `atol` of zero. -/
def allclose0 (v : Q3) : Bool :=
  np_isclose v.1 0 && np_isclose v.2.1 0 && np_isclose v.2.2 0

/-- `np.isclose([x,y,z],[fx,fy,fz]).all()`: componentwise closeness. -/
def isclose3 (p q : Q3) : Bool :=
  np_isclose p.1 q.1 && np_isclose p.2.1 q.2.1 && np_isclose p.2.2 q.2.2

/-- Floor of a rational, computed directly from numerator and denominator
(kernel-reducible; equal to Mathlib's `⌊q⌋` by `qfloor_eq`). -/
def qfloor (q : ℚ) : ℤ := q.num / (q.den : ℤ)

/-- Ceiling of a rational (equal to Mathlib's `⌈q⌉` by `qceil_eq`). -/
def qceil (q : ℚ) : ℤ := -qfloor (-q)

/-- Round half to even (banker's rounding): the semantics of both NumPy's
`np.rint` and Python 3's builtin `round`. -/
def rintQ (q : ℚ) : ℤ :=
  let f : ℤ := qfloor q
  let r : ℚ := q - f
  if r < 1 / 2 then f
  else if 1 / 2 < r then f + 1
  else if f % 2 = 0 then f else f + 1

/-- Python's `int()` on a float: truncation toward zero. -/
def truncQ (q : ℚ) : ℤ := if q < 0 then qceil q else qfloor q

/-- Python's `range(a, b)` as a list of integers (empty when `b ≤ a`). -/
def pyRange (a b : ℤ) : List ℤ :=
  (List.range (b - a).toNat).map (fun n : ℕ => a + (n : ℤ))

/-- The `to_index` helper shared by `generate_nodes` and `generate_elements`:
`int(round(L/element_size))`, rounding to the nearest integer (half-even). -/
def node_to_index (es L : ℚ) : ℤ := rintQ (L / es)

/-- The `is_int` helper of `generate_nodes`: `abs(x - round(x)) <= tol`
with `tol = 1e-10`. -/
def is_int_tol (x : ℚ) : Bool := |x - (rintQ x : ℚ)| ≤ float_tol

/-- Effective cutout x-offset: the source replaces it by the outer width
when both the cutout extent and the cutout offset are all (close to) zero. -/
def eff_xo (outer cutout coff : Q3) : ℚ :=
  if allclose0 cutout && allclose0 coff then outer.1 else coff.1

/-- Effective cutout height: replaced by the outer height when there is no
cutout (extent and offset all close to zero). -/
def eff_yc (outer cutout coff : Q3) : ℚ :=
  if allclose0 cutout && allclose0 coff then outer.2.1 else cutout.2.1

/-- One rectangular block of lattice indices, iterated exactly as the
source's triple loop: `z` outermost, then `y`, then `x` innermost, emitting
`(x, y, z)` triples. -/
def region (z0 z1 y0 y1 x0 x1 : ℤ) : List (ℤ × ℤ × ℤ) :=
  (pyRange z0 z1).flatMap (fun z =>
    (pyRange y0 y1).flatMap (fun y =>
      (pyRange x0 x1).map (fun x => (x, y, z))))

/-- The grid-index triples emitted by `generate_nodes`, in emission order:
the seven-region decomposition of the L-shaped domain (explosive block,
two blocks above it, three blocks to its right, and the block above the
cutout whose first row sits at `y = nyf_c`). -/
def gridNodes (nxf nyf nzf nxf_e nyf_e nzf_e nxi_c_o nyf_c : ℤ) : List (ℤ × ℤ × ℤ) :=
  region 0 (nzf_e + 1) 0 (nyf_e + 1) 0 (nxf_e + 1) ++
  region 0 (nzf + 1) (nyf_e + 1) (nyf_c + 1) 0 (nxf_e + 1) ++
  region 0 (nzf + 1) (nyf_c + 1) (nyf + 1) 0 (nxf_e + 1) ++
  region 0 (nzf + 1) 0 (nyf_e + 1) (nxf_e + 1) (nxi_c_o + 1) ++
  region 0 (nzf + 1) (nyf_e + 1) (nyf_c + 1) (nxf_e + 1) (nxi_c_o + 1) ++
  region 0 (nzf + 1) (nyf_c + 1) (nyf + 1) (nxf_e + 1) (nxi_c_o + 1) ++
  (pyRange 0 (nzf + 1)).flatMap (fun z =>
    (pyRange (nxi_c_o + 1) (nxf + 1)).map (fun x => (x, nyf_c, z)) ++
    (pyRange (nyf_c + 1) (nyf + 1)).flatMap (fun y =>
      (pyRange (nxi_c_o + 1) (nxf + 1)).map (fun x => (x, y, z))))

/-- `generate_nodes(element_size, outer_dims, expl_dims, cutout_dims,
cutout_offset)`:  substitutes the effective cutout parameters when no
cutout is specified, aborts (returns `none`, the source's `return None`)
when the explosive extents are not integer multiples of the element size
within `1e-10`, and otherwise emits one node per lattice point of the
seven-region decomposition, with 1-based sequential IDs and coordinates
`index * element_size`. -/
def generate_nodes (es : ℚ) (outer expl cutout coff : Q3) :
    Option (List (ℕ × Q3)) :=
  let xo : ℚ := eff_xo outer cutout coff
  let yc : ℚ := eff_yc outer cutout coff
  if is_int_tol (expl.1 / es) && is_int_tol (expl.2.1 / es) then
    let nxf := node_to_index es outer.1
    let nyf := node_to_index es outer.2.1
    let nzf := node_to_index es outer.2.2
    let nxf_e := node_to_index es expl.1
    let nyf_e := node_to_index es expl.2.1
    let nzf_e := node_to_index es expl.2.2
    let nxi_c_o := node_to_index es xo
    let nyf_c := node_to_index es yc
    some (List.enumFrom 1
      ((gridNodes nxf nyf nzf nxf_e nyf_e nzf_e nxi_c_o nyf_c).map
        (fun p => (p.1 * es, p.2.1 * es, p.2.2 * es))))
  else none

/-- A fully-typed node record: the columns `[node ID, x, y, z, tc, rc]` of
the source's node section (IDs and constraint codes are integers, written
here as `ℕ` since they are 1-based IDs and small enum codes). -/
structure NodeRow where
  nid : ℕ
  x : ℚ
  y : ℚ
  z : ℚ
  tc : ℕ
  rc : ℕ
deriving DecidableEq

/-- The per-node translational-constraint computation of `add_constraints`,
exactly in source order: start at 3; the first `if` sets 5 when
`np.isclose(y,0) or np.isclose(y,yf_cutout) and x > xi_cutout_offset and
not np.isclose(y,yf)` (Python's `and` binds tighter than `or`);
the second `if` sets 6 when `np.isclose(x,0) or np.isclose(x,
xi_cutout_offset) and y < yf_cutout and not np.isclose(x,xf)`; the final
loop sets 7 when the coordinates match any fixed coordinate via
`np.isclose(...).all()`. -/
def tc_of (xf yf yc xo : ℚ) (fixed : List Q3) (p : Q3) : ℕ :=
  let t1 : ℕ :=
    if np_isclose p.2.1 0 ||
        (np_isclose p.2.1 yc && decide (xo < p.1) && !np_isclose p.2.1 yf)
    then 5 else 3
  let t2 : ℕ :=
    if np_isclose p.1 0 ||
        (np_isclose p.1 xo && decide (p.2.1 < yc) && !np_isclose p.1 xf)
    then 6 else t1
  if fixed.any (fun f => isclose3 p f) then 7 else t2

/-- `add_constraints(nodes, outer_dims, cutout_dims, cutout_offset,
fixed_coords)`: appends the `tc` column (computed per node by `tc_of`,
with the effective cutout parameters substituted when there is no cutout)
and the constant `rc = 7` column to the node rows. -/
def add_constraints (nodes : List (ℕ × Q3)) (outer cutout coff : Q3)
    (fixed : List Q3) : List NodeRow :=
  let xf := outer.1
  let yf := outer.2.1
  let xo := eff_xo outer cutout coff
  let yc := eff_yc outer cutout coff
  nodes.map (fun n =>
    ⟨n.1, n.2.1, n.2.2.1, n.2.2.2, tc_of xf yf yc xo fixed n.2, 7⟩)

/-- The grid-snapping of `generate_elements`: a physical coordinate times
`scale = 1/element_size`, biased by `tol = 1e-10`, rounded half-even
(`np.rint(xs*scale+tol)`). -/
def snap_index (v : ℚ) : ℤ := rintQ (v + float_tol)

/-- The Python dict `index_to_id` built by inserting `(key, node ID)` pairs
left to right; a later insertion with the same key overrides an earlier
one, and lookup of an absent key is `none` (a `KeyError` in the source). -/
def buildMap (entries : List ((ℤ × ℤ × ℤ) × ℕ)) : (ℤ × ℤ × ℤ) → Option ℕ :=
  entries.foldl (fun m e => fun k => if k = e.1 then some e.2 else m k)
    (fun _ => none)

/-- Successful lookup of every element of `l`, in order (`none` as soon as
one lookup fails): the effect of the `try/except KeyError` in
`element_node_IDs`. -/
def traverseOpt (f : α → Option β) : List α → Option (List β)
  | [] => some []
  | a :: as =>
    match f a with
    | none => none
    | some b =>
      match traverseOpt f as with
      | none => none
      | some bs => some (b :: bs)

/-- The 8 corner grid indices of the unit cell at `(i,j,k)` in the fixed
source order: bottom face `(i,j)`, `(i+1,j)`, `(i+1,j+1)`, `(i,j+1)`, then
the same four corners at `k+1`. -/
def cornerOrder (i j k : ℤ) : List (ℤ × ℤ × ℤ) :=
  [(i, j, k), (i + 1, j, k), (i + 1, j + 1, k), (i, j + 1, k),
   (i, j, k + 1), (i + 1, j, k + 1), (i + 1, j + 1, k + 1), (i, j + 1, k + 1)]

/-- `element_node_IDs(i,j,k)`: the 8 corner node IDs looked up through the
grid-index map, or `None` (here `none`) if any lookup raises `KeyError`. -/
def element_node_IDs (m : (ℤ × ℤ × ℤ) → Option ℕ) (i j k : ℤ) :
    Option (List ℕ) :=
  match m (i, j, k) with
  | none => none
  | some a =>
  match m (i + 1, j, k) with
  | none => none
  | some b =>
  match m (i + 1, j + 1, k) with
  | none => none
  | some c =>
  match m (i, j + 1, k) with
  | none => none
  | some d =>
  match m (i, j, k + 1) with
  | none => none
  | some e =>
  match m (i + 1, j, k + 1) with
  | none => none
  | some f =>
  match m (i + 1, j + 1, k + 1) with
  | none => none
  | some g =>
  match m (i, j + 1, k + 1) with
  | none => none
  | some h => some [a, b, c, d, e, f, g, h]

/-- Part ID of the non-explosive material. -/
def part_nonexpl : ℕ := 1

/-- Part ID of the explosive material. -/
def part_expl : ℕ := 2

/-- The grid-index map of `generate_elements`, built from the node rows by
snapping each node's coordinates (`np.rint(coord*scale + tol)`). -/
def index_to_id (nodes : List NodeRow) (es : ℚ) : (ℤ × ℤ × ℤ) → Option ℕ :=
  let scale : ℚ := 1 / es
  buildMap (nodes.map (fun r =>
    ((snap_index (r.x * scale), snap_index (r.y * scale),
      snap_index (r.z * scale)), r.nid)))

/-- The element rows (part ID followed by the 8 vertex node IDs) produced
by the candidate-cell loops of `generate_elements`, before IDs are
prepended.  A cell whose `element_node_IDs` lookup fails contributes
nothing (`continue` / `if ns:` in the source). -/
def element_bodies (m : (ℤ × ℤ × ℤ) → Option ℕ)
    (nxf nyf nzf nxf_e nyf_e nzf_e nxi_c_o nyf_c : ℤ) (nocut : Bool) :
    List (List ℕ) :=
  (region 0 nzf_e 0 nyf_e 0 nxf_e).filterMap (fun c =>
    (element_node_IDs m c.1 c.2.1 c.2.2).map (fun ns => part_expl :: ns)) ++
  (region 0 nzf nyf_e nyf 0 nxf_e).filterMap (fun c =>
    (element_node_IDs m c.1 c.2.1 c.2.2).map (fun ns => part_nonexpl :: ns)) ++
  (if nocut then
    (region 0 nzf 0 nyf nxf_e nxf).filterMap (fun c =>
      (element_node_IDs m c.1 c.2.1 c.2.2).map (fun ns => part_nonexpl :: ns))
  else
    (pyRange 0 nzf).flatMap (fun z =>
      (pyRange 0 nyf).flatMap (fun y =>
        let xEnd : ℤ := if nyf_c ≤ y then max (nxf_e - 1) (nxi_c_o - 1)
                        else nxf - 1
        (pyRange nxf_e (xEnd + 1)).filterMap (fun x =>
          (element_node_IDs m x y z).map (fun ns => part_nonexpl :: ns))))) ++
  (if nyf_c < nyf ∧ nxi_c_o < nxf then
    (region 0 nzf nyf_c nyf nxi_c_o nxf).filterMap (fun c =>
      (element_node_IDs m c.1 c.2.1 c.2.2).map (fun ns => part_nonexpl :: ns))
  else [])

/-- `generate_elements(nodes, element_size, outer_dims, expl_dims,
cutout_dims, cutout_offset)`: converts every dimension with `int()`
(truncation toward zero) via `map(int, ...)`, substitutes the effective
cutout parameters when there is no cutout, rebuilds grid indices by
snapping the node coordinates, emits the hexahedra of the candidate-cell
loops, and prepends 1-based sequential element IDs. -/
def generate_elements (nodes : List NodeRow) (es : ℚ)
    (outer expl cutout coff : Q3) : List (List ℕ) :=
  let xf : ℤ := truncQ outer.1
  let yf : ℤ := truncQ outer.2.1
  let zf : ℤ := truncQ outer.2.2
  let xf_e : ℤ := truncQ expl.1
  let yf_e : ℤ := truncQ expl.2.1
  let zf_e : ℤ := truncQ expl.2.2
  let nocut : Bool := allclose0 cutout && allclose0 coff
  let xo : ℤ := if nocut then xf else truncQ coff.1
  let yc : ℤ := if nocut then yf else truncQ cutout.2.1
  let m := index_to_id nodes es
  let nxf := node_to_index es (xf : ℚ)
  let nyf := node_to_index es (yf : ℚ)
  let nzf := node_to_index es (zf : ℚ)
  let nxf_e := node_to_index es (xf_e : ℚ)
  let nyf_e := node_to_index es (yf_e : ℚ)
  let nzf_e := node_to_index es (zf_e : ℚ)
  let nxi_c_o := node_to_index es (xo : ℚ)
  let nyf_c := node_to_index es (yc : ℚ)
  (List.enumFrom 1
    (element_bodies m nxf nyf nzf nxf_e nyf_e nzf_e nxi_c_o nyf_c nocut)).map
(fun p => p.1 :: p.2)

/-! ## The fixed-width text codec

Strings are modelled as `List Char`.  The formatter mirrors
`format_sections_into_file`; the parser mirrors `extract`, `parse_nodes`
and `parse_elements` of `parseMeshFile.py`. -/

/-- Python's `\s` / `str.strip` whitespace characters. -/
def pyIsSpace (c : Char) : Bool :=
  c = ' ' || c = '\t' || c = '\n' || c = '\r' || c = '\x0b' || c = '\x0c'

/-- The regex character class `[-+0-9.Ee]` used for the coordinate fields
of the node-line pattern. -/
def isFloatClass (c : Char) : Bool :=
  c.isDigit || c = '-' || c = '+' || c = '.' || c = 'E' || c = 'e'

/-- Decimal digit characters of `n`, most significant first, by structural
recursion on a fuel bound (`fuel ≥ n` suffices); empty for `n = 0`. -/
def natToCharsAux : ℕ → ℕ → List Char
  | 0, _ => []
  | fuel + 1, n =>
    if n = 0 then []
    else natToCharsAux fuel (n / 10) ++ [Char.ofNat (48 + n % 10)]

/-- Decimal representation of `n` (`"0"` for zero), as Python's `str`/`%d`
produce it for non-negative integers. -/
def natToChars (n : ℕ) : List Char := if n = 0 then ['0'] else natToCharsAux n n

/-- Decimal value of a digit string (the `int` conversion applied by the
parser to matched digit groups). -/
def parseNat (s : List Char) : ℕ :=
  s.foldl (fun a c => 10 * a + (c.toNat - 48)) 0

/-- Python's `str.rjust` / the `{v:8d}` field padding: left-pad with
spaces to width `w` (no truncation if already longer). -/
def rjust (w : ℕ) (s : List Char) : List Char :=
  List.replicate (w - s.length) ' ' ++ s

/-- `(10 : ℚ) ^ e` for an integer exponent. -/
def qpow10 (e : ℤ) : ℚ := (10 : ℚ) ^ e

/-- Number of decimal digits of `n` (0 for `n = 0`). -/
def dlen (n : ℕ) : ℕ := (natToCharsAux n n).length

/-- The decimal exponent of `x ≠ 0`: the unique `e` with
`10^e ≤ |x| < 10^(e+1)`, computed from digit counts of numerator and
denominator. -/
def decExp (x : ℚ) : ℤ :=
  let c : ℤ := (dlen x.num.natAbs : ℤ) - (dlen x.den : ℤ)
  if qpow10 c ≤ |x| then c else c - 1

/-- The 10-digit mantissa integer and exponent of the `%.9E` encoding of
`x ≠ 0`: round `|x| / 10^(e-9)` half-even; when rounding carries all the
way up (mantissa `10^10`), renormalise to mantissa `10^9`, exponent
`e + 1`. -/
def sciDigits (x : ℚ) : ℕ × ℤ :=
  let e := decExp x
  let n := (rintQ (|x| * qpow10 (9 - e))).toNat
  if n = 10 ^ 10 then (10 ^ 9, e + 1) else (n, e)

/-- The exponent suffix of `%.9E`: sign, then at least two digits. -/
def sciExpChars (e : ℤ) : List Char :=
  let ds := natToChars e.natAbs
  (if e < 0 then ['-'] else ['+']) ++ (if ds.length < 2 then '0' :: ds else ds)

/-- The characters of `"0.000000000E+00"`, the `%.9E` encoding of zero. -/
def sciZeroChars : List Char :=
  ['0', '.', '0', '0', '0', '0', '0', '0', '0', '0', '0', 'E', '+', '0', '0']

/-- Python's `f"{x:.9E}"`: scientific notation with 9 digits after the
decimal point (10 significant digits). -/
def sciChars (x : ℚ) : List Char :=
  if x = 0 then sciZeroChars
  else
    let ds := natToChars (sciDigits x).1
    (if x < 0 then ['-'] else []) ++
      [ds.headD '0'] ++ ['.'] ++ ds.tail ++ ['E'] ++ sciExpChars (sciDigits x).2

/-- The rational value actually written by the `%.9E` encoding of `x`: the
mantissa and exponent of `sciDigits`, signed.  "The encoded
9-significant-digit precision" of the round-trip property. -/
def enc9 (x : ℚ) : ℚ :=
  if x = 0 then 0
  else (if x < 0 then -1 else 1) * ((sciDigits x).1 : ℚ) *
    qpow10 ((sciDigits x).2 - 9)

/-- `str.startswith(kw)` (declared ahead of its main use in `extract`
because the float parser also tests single-character prefixes). -/
def leadsWith : List Char → List Char → Bool
  | [], _ => true
  | _ :: _, [] => false
  | k :: ks, c :: cs => k = c && leadsWith ks cs

/-- Python's `float()` on a stripped token: optional sign, integer part,
optional fraction part after `.`, optional exponent after `e`/`E`; `none`
(a `ValueError`) when the token is not a well-formed float literal. -/
def pyFloat (s : List Char) : Option ℚ :=
  let s1 := if leadsWith ['+'] s || leadsWith ['-'] s then s.tail else s
  let sgn : ℚ := if leadsWith ['-'] s then -1 else 1
  let ip := s1.takeWhile Char.isDigit
  let r1 := s1.dropWhile Char.isDigit
  let hasDot := leadsWith ['.'] r1
  let fp := if hasDot then r1.tail.takeWhile Char.isDigit else []
  let r2 := if hasDot then r1.tail.dropWhile Char.isDigit else r1
  if ip.isEmpty && fp.isEmpty then none
  else
    let mant : ℚ :=
      sgn * ((parseNat ip : ℚ) + (parseNat fp : ℚ) / 10 ^ fp.length)
    if r2.isEmpty then some mant
    else if leadsWith ['e'] r2 || leadsWith ['E'] r2 then
      let t := r2.tail
      let t1 := if leadsWith ['+'] t || leadsWith ['-'] t then t.tail else t
      let esgn : ℤ := if leadsWith ['-'] t then -1 else 1
      let eds := t1.takeWhile Char.isDigit
      let r3 := t1.dropWhile Char.isDigit
      if eds.isEmpty || !r3.isEmpty then none
      else some (mant * qpow10 (esgn * (parseNat eds : ℤ)))
    else none

/-- One line of the node section:
`f"{node_id:8d} {x:.9E} {y:.9E} {z:.9E}{tc:8d}{rc:8d}"`. -/
def nodeLine (r : NodeRow) : List Char :=
  rjust 8 (natToChars r.nid) ++ [' '] ++ sciChars r.x ++ [' '] ++
    sciChars r.y ++ [' '] ++ sciChars r.z ++
    rjust 8 (natToChars r.tc) ++ rjust 8 (natToChars r.rc)

/-- One line of the element section: ten 8-wide right-justified integer
fields joined with no separator. -/
def elemLine (row : List ℕ) : List Char :=
  (row.map (fun v => rjust 8 (natToChars v))).flatten

/-- The characters of the `*NODE` keyword line. -/
def hdrNode : List Char := ['*', 'N', 'O', 'D', 'E']

/-- The characters of the `*ELEMENT_SOLID` keyword line. -/
def hdrElem : List Char :=
  ['*', 'E', 'L', 'E', 'M', 'E', 'N', 'T', '_', 'S', 'O', 'L', 'I', 'D']

/-- The characters of the terminating `*END` keyword line. -/
def hdrEnd : List Char := ['*', 'E', 'N', 'D']

/-- `format_sections_into_file`, as the list of lines written: the `*NODE`
header, one line per node row, the `*ELEMENT_SOLID` header, one line per
element row, and the `*END` marker. -/
def format_sections_into_file (nodeSec : List NodeRow)
    (elemSec : List (List ℕ)) : List (List Char) :=
  [hdrNode] ++ nodeSec.map nodeLine ++ [hdrElem] ++ elemSec.map elemLine ++
    [hdrEnd]

/-- The file's character stream: every line terminated by `"\n"`, exactly
as the source `f.write(... + "\n")` produces it. -/
def fileChars (lines : List (List Char)) : List Char :=
  lines.flatMap (fun l => l ++ ['\n'])

/-- Helper for `pySplitlines`: accumulates the current (reversed) line. -/
def splitlinesGo : List Char → List Char → List (List Char)
  | [], acc => if acc.isEmpty then [] else [acc.reverse]
  | c :: cs, acc =>
    if c = '\n' then acc.reverse :: splitlinesGo cs []
    else splitlinesGo cs (c :: acc)

/-- Python's `str.splitlines()` for `\n`-terminated content: split at every
newline, with no trailing empty line for content ending in `"\n"`. -/
def pySplitlines (s : List Char) : List (List Char) := splitlinesGo s []

/-- Right-strip: drop trailing whitespace. -/
def rstripL (s : List Char) : List Char :=
  (s.reverse.dropWhile pyIsSpace).reverse

/-- Python's `str.strip()`: drop leading and trailing whitespace. -/
def pyStrip (s : List Char) : List Char := rstripL (s.dropWhile pyIsSpace)

/-- Python's `str.upper()` (ASCII content). -/
def toUpperL (s : List Char) : List Char := s.map Char.toUpper

/-- The scanning loop of `extract`: a keyword line (stripped text starting
with `*`) switches `reading` to whether the (upper-cased, stripped) line
starts with the requested keyword; while reading, a non-blank line is
collected and a blank line stops the scan. -/
def extractGo (kw : List Char) : List (List Char) → Bool → List (List Char)
  | [], _ => []
  | line :: rest, reading =>
    let st := pyStrip line
    if leadsWith ['*'] st then extractGo kw rest (leadsWith kw (toUpperL st))
    else if reading && !st.isEmpty then line :: extractGo kw rest reading
    else if reading && st.isEmpty then []
    else extractGo kw rest reading

/-- `extract(content, keyword)`: the section of non-blank lines following
the keyword's header line, up to the next header or blank line. -/
def extract (content : List Char) (kw : List Char) : List (List Char) :=
  extractGo kw (pySplitlines content) false

/-- Greedy maximal munch of at least one character satisfying `p`: the
behaviour of `(\d+)`, `(\s+)` and `([-+0-9.Ee]+)` in the node-line regex
(the character classes involved are pairwise disjoint at every boundary of
the pattern, so greedy matching without backtracking is exact). -/
def munch (p : Char → Bool) (s : List Char) :
    Option (List Char × List Char) :=
  let t := s.takeWhile p
  if t.isEmpty then none else some (t, s.dropWhile p)

/-- The six captured groups of the node-line regex. -/
structure NodeGroups where
  g1 : List Char
  g2 : List Char
  g3 : List Char
  g4 : List Char
  g5 : List Char
  g6 : List Char
deriving DecidableEq

/-- `re.match` of the anchored node-line pattern
`^\s*(\d+)\s+([-+0-9.Ee]+)\s+([-+0-9.Ee]+)\s+([-+0-9.Ee]+)\s+(\d+)\s+(\d+)`
(trailing text after the last group is permitted, as with `re.match`). -/
def matchNodeLine (s : List Char) : Option NodeGroups := do
  let s0 := s.dropWhile pyIsSpace
  let (g1, s1) ← munch Char.isDigit s0
  let (_, s2) ← munch pyIsSpace s1
  let (g2, s3) ← munch isFloatClass s2
  let (_, s4) ← munch pyIsSpace s3
  let (g3, s5) ← munch isFloatClass s4
  let (_, s6) ← munch pyIsSpace s5
  let (g4, s7) ← munch isFloatClass s6
  let (_, s8) ← munch pyIsSpace s7
  let (g5, s9) ← munch Char.isDigit s8
  let (_, s10) ← munch pyIsSpace s9
  let (g6, _) ← munch Char.isDigit s10
  pure ⟨g1, g2, g3, g4, g5, g6⟩

/-- Helper for `digitRuns`: accumulate the current (reversed) digit run. -/
def digitRunsGo : List Char → List Char → List (List Char)
  | [], acc => if acc.isEmpty then [] else [acc.reverse]
  | c :: cs, acc =>
    if c.isDigit then digitRunsGo cs (c :: acc)
    else if acc.isEmpty then digitRunsGo cs []
    else acc.reverse :: digitRunsGo cs []

/-- `re.findall(r'\d+', line)`: the maximal runs of consecutive digits. -/
def digitRuns (s : List Char) : List (List Char) := digitRunsGo s []

/-- `parse_nodes(section)`: keep the lines matching the node pattern, then
convert the columns (`astype`): IDs and constraint codes to integers
(always succeeds on digit groups), coordinates with `float()` — a group
matching the character class but not a valid float literal raises
`ValueError`, aborting the whole conversion (`none`). -/
def parse_nodes (sec : List (List Char)) : Option (List NodeRow) :=
  traverseOpt (fun g =>
    match pyFloat g.g2, pyFloat g.g3, pyFloat g.g4 with
    | some xv, some yv, some zv =>
      some ⟨parseNat g.g1, xv, yv, zv, parseNat g.g5, parseNat g.g6⟩
    | _, _, _ => none)
    (sec.filterMap matchNodeLine)

/-- `parse_elements(section)`: the rows whose lines contain exactly 10
runs of digits, each run converted to an integer. -/
def parse_elements (sec : List (List Char)) : List (List ℕ) :=
  sec.filterMap (fun l =>
    let runs := digitRuns l
    if runs.length = 10 then some (runs.map parseNat) else none)

/-- The uncaught Python exceptions relevant to the pipeline. -/
inductive PyErr where
  | typeError : PyErr
deriving DecidableEq

/-- `main(...)` of the generator: when `generate_nodes` returns `None`
(failed divisibility check), `add_constraints` slices `None` and raises an
uncaught `TypeError` before any file is opened; otherwise the constrained
node section and the element section are formatted into the output file. -/
def run_main (es : ℚ) (outer cutout coff expl : Q3) (fixed : List Q3) :
    Except PyErr (List (List Char)) :=
  match generate_nodes es outer expl cutout coff with
  | none => Except.error PyErr.typeError
  | some ns =>
    let nodeSec := add_constraints ns outer cutout coff fixed
    let elemSec := generate_elements nodeSec es outer expl cutout coff
    Except.ok (format_sections_into_file nodeSec elemSec)

/-! ## Claim-side reference definitions

Definitions written from the wording of the spec's claims, to be compared
against the source-derived definitions above. -/

/-- Stated from the claim: the translational-constraint rule order as the
spec words it — start at 3; set 5 when y is (close to) 0, or when y equals
the cutout height and x strictly exceeds the cutout x-offset and y is not
the outer top edge; then set 6 (overriding) when x is (close to) 0, or
when x equals the cutout x-offset and y is strictly below the cutout
height and x is not the outer right edge.  The y = 0 / x = 0 branches are
unqualified by the other clauses. -/
def tc_rule_spec (xf yf yc xo : ℚ) (p : Q3) : ℕ :=
  let afterRule5 : ℕ :=
    if np_isclose p.2.1 0 = true ∨
        (np_isclose p.2.1 yc = true ∧ xo < p.1 ∧ ¬ np_isclose p.2.1 yf = true)
    then 5 else 3
  if np_isclose p.1 0 = true ∨
      (np_isclose p.1 xo = true ∧ p.2.1 < yc ∧ ¬ np_isclose p.1 xf = true)
  then 6 else afterRule5

/-- Stated from the claim: closeness under the single documented `1e-10`
tolerance that the spec says every comparison site shares. -/
def close_tol10 (a b : ℚ) : Bool := |a - b| ≤ float_tol

/-- Componentwise `close_tol10` on coordinate triples. -/
def close3_tol10 (p q : Q3) : Bool :=
  close_tol10 p.1 q.1 && close_tol10 p.2.1 q.2.1 && close_tol10 p.2.2 q.2.2

/-- Stated from the claim: the constraint computation as it would behave
if `add_constraints` used the uniform `1e-10` tolerance at every
comparison site (same rule structure as `tc_of`, tolerance replaced). -/
def tc_of_tol10 (xf yf yc xo : ℚ) (fixed : List Q3) (p : Q3) : ℕ :=
  let t1 : ℕ :=
    if close_tol10 p.2.1 0 ||
        (close_tol10 p.2.1 yc && decide (xo < p.1) && !close_tol10 p.2.1 yf)
    then 5 else 3
  let t2 : ℕ :=
    if close_tol10 p.1 0 ||
        (close_tol10 p.1 xo && decide (p.2.1 < yc) && !close_tol10 p.1 xf)
    then 6 else t1
  if fixed.any (fun f => close3_tol10 p f) then 7 else t2

/-! ## Concrete fixtures used by counterexamples and witnesses -/

/-- A node line whose x-coordinate token `1.0.0` matches the regex's
character class `[-+0-9.Ee]` but is not a valid float literal. -/
def badNodeLine : List Char :=
  [' ', '1', ' ', '1', '.', '0', '.', '0', ' ', '2', '.', '0', ' ', '3',
   '.', '0', ' ', '3', ' ', '7']

/-- A well-formed node line: ID 2, coordinates (1.0, 2.0, 3.0), tc 3, rc 7. -/
def goodNodeLine : List Char :=
  [' ', '2', ' ', '1', '.', '0', ' ', '2', '.', '0', ' ', '3', '.', '0',
   ' ', '3', ' ', '7']

/-- A node line whose x-coordinate token `abc` falls outside the regex's
character class, so the row pattern does not match. -/
def alphaNodeLine : List Char :=
  [' ', '1', ' ', 'a', 'b', 'c', ' ', '2', '.', '0', ' ', '3', '.', '0',
   ' ', '3', ' ', '7']

/-- A one-entry grid-index map (only the origin is present), used to
exercise the lookup-miss path of `element_node_IDs`. -/
def oneEntryMap : (ℤ × ℤ × ℤ) → Option ℕ := buildMap [((0, 0, 0), 1)]

/-- The concrete domain of the spec's scenario: element size 1, outer
extent (2,2,1), explosive extent (1,1,1), no cutout. -/
def sc_ns : List (ℕ × Q3) :=
  (generate_nodes 1 (2, 2, 1) (1, 1, 1) (0, 0, 0) (0, 0, 0)).getD []

/-- Its constrained node section with fixed coordinate (0,0,0). -/
def sc_nodeSec : List NodeRow :=
  add_constraints sc_ns (2, 2, 1) (0, 0, 0) (0, 0, 0) [(0, 0, 0)]

/-- Its element section. -/
def sc_elemSec : List (List ℕ) :=
  generate_elements sc_nodeSec 1 (2, 2, 1) (1, 1, 1) (0, 0, 0) (0, 0, 0)

/-! ## Helper lemmas -/

theorem qfloor_eq (q : ℚ) : qfloor q = ⌊q⌋ := Rat.floor_def.symm

theorem qceil_eq (q : ℚ) : qceil q = ⌈q⌉ := by
  rw [qceil, qfloor_eq, Int.floor_neg, neg_neg]

theorem traverseOpt_eq_none_of_mem {f : α → Option β} {l : List α} {c : α}
    (hc : c ∈ l) (hn : f c = none) : traverseOpt f l = none := by
  induction l with
  | nil => cases hc
  | cons a as ih =>
    rcases List.mem_cons.mp hc with rfl | hc
    · simp [traverseOpt, hn]
    · unfold traverseOpt
      rcases h : f a with _ | b
      · rfl
      · rw [ih hc]

/-! ## Claim theorems (part 1) -/

/-- Claim C3 (code bug evidence): on an explosive x-extent of 1.5 with
element size 1, the divisibility check fails before any node is created
(`generate_nodes` returns `None` after printing the diagnostic) and no
output file is produced — but the run then terminates with an uncaught
`TypeError` raised by `add_constraints` slicing `None`, not with the
clean local abort the claim describes. -/
theorem c3_divisibility_abort_crashes :
    generate_nodes 1 ((3 : ℚ), 3, 1) ((3 / 2 : ℚ), 1, 1) (0, 0, 0) (0, 0, 0)
      = none ∧
    run_main 1 ((3 : ℚ), 3, 1) (0, 0, 0) (0, 0, 0) ((3 / 2 : ℚ), 1, 1) []
      = Except.error PyErr.typeError := by
  exact ⟨by with_unfolding_all decide, by with_unfolding_all rfl⟩

/-- Claim C10: with outer x-extent 2.5 and element size 0.5, the node
generator's grid bound `round(2.5/0.5)` is 5, while the element generator
first truncates with `int()` and computes `round(int(2.5)/0.5) = 4`, so the
two bounds differ on the same axis. -/
theorem c10_trunc_vs_round_bounds :
    node_to_index (1 / 2) (5 / 2) = 5 ∧
    node_to_index (1 / 2) ((truncQ (5 / 2) : ℤ) : ℚ) = 4 ∧
    node_to_index (1 / 2) (5 / 2) ≠
      node_to_index (1 / 2) ((truncQ (5 / 2) : ℤ) : ℚ) := by
  with_unfolding_all decide

/-- Claim C2 (counterexample): for element size 1, outer extent (1,1,2),
explosive extent (1,1,1) and no cutout, the divisibility check passes but
`generate_nodes` emits 8 nodes — the explosive block's z-range stops at
the explosive z-extent — not the (nx+1)(ny+1)(nz+1) = 12 the claim
demands. -/
theorem c2_nodecount_counterexample :
    ((generate_nodes 1 ((1 : ℚ), 1, 2) ((1 : ℚ), 1, 1) (0, 0, 0)
        (0, 0, 0)).getD []).length = 8 ∧
    ((node_to_index 1 1 + 1) * (node_to_index 1 1 + 1) *
        (node_to_index 1 2 + 1) : ℤ) = 12 ∧
    (8 : ℤ) ≠ 12 := by
  with_unfolding_all decide

/-- Claim C9 (counterexample): for element size 1, outer extent (3,3,1),
explosive extent (2,1,1), cutout extent (1,2,0) and cutout offset (1,0,0)
— a cutout x-offset index (1) smaller than the explosive x-extent index
(2) — `generate_nodes` passes the divisibility check yet emits two nodes
with the same coordinate triple. -/
theorem c9_duplicate_counterexample :
    (generate_nodes 1 ((3 : ℚ), 3, 1) ((2 : ℚ), 1, 1) ((1 : ℚ), 2, 0)
        ((1 : ℚ), 0, 0)).isSome = true ∧
    ¬ (((generate_nodes 1 ((3 : ℚ), 3, 1) ((2 : ℚ), 1, 1) ((1 : ℚ), 2, 0)
        ((1 : ℚ), 0, 0)).getD []).map (fun p => p.2)).Nodup := by
  with_unfolding_all decide

/-- Claim C7 (counterexample): a node at y = 1e-9 on a 10×10×1 domain with
no cutout is given tc = 5 by `add_constraints` — NumPy's `isclose`
defaults treat 1e-9 as equal to 0 — whereas under the single 1e-10
tolerance the claim asserts for every comparison site the edge rules would
leave tc = 3; so the fixed/edge matching site uses a different (wider)
tolerance than the documented 1e-10 one. -/
theorem c7_tolerance_counterexample :
    (add_constraints [(1, ((5 : ℚ), 1 / 10 ^ 9, 0))] (10, 10, 1) (0, 0, 0)
        (0, 0, 0) []).map NodeRow.tc = [5] ∧
    tc_of_tol10 10 10 10 10 [] ((5 : ℚ), 1 / 10 ^ 9, 0) = 3 ∧
    (5 : ℕ) ≠ 3 := by
  with_unfolding_all decide

/-- Claim C7 (amended): the divisibility check of `generate_nodes` and the
grid snapping of `generate_elements` do share the single constant `1e-10`
(`float_tol`), but the edge/fixed-coordinate matching in `add_constraints`
uses NumPy's `isclose` defaults — absolute tolerance 1e-8 plus relative
tolerance 1e-5 — which is strictly wider than `float_tol`. -/
theorem c7_tolerance_amended :
    (∀ x : ℚ, is_int_tol x = close_tol10 x ((rintQ x : ℤ) : ℚ)) ∧
    (∀ v : ℚ, snap_index v = rintQ (v + float_tol)) ∧
    (∀ a : ℚ, |a| ≤ np_atol → np_isclose a 0 = true) ∧
    float_tol < np_atol := by
  refine ⟨fun x => rfl, fun v => rfl, fun a ha => ?_, by norm_num [float_tol, np_atol]⟩
  simp only [np_isclose, sub_zero, abs_zero, decide_eq_true_eq]
  have : np_rtol * |(0 : ℚ)| = 0 := by simp
  nlinarith [abs_nonneg a]

/-- Witness for the amended claim C7 at concrete inputs. -/
theorem c7_tolerance_amended_witness :
    np_isclose (1 / 10 ^ 9 : ℚ) 0 = true ∧
    is_int_tol (1 / 2 : ℚ) = close_tol10 (1 / 2) ((rintQ (1 / 2 : ℚ) : ℤ) : ℚ) :=
  ⟨c7_tolerance_amended.2.2.1 (1 / 10 ^ 9) (by with_unfolding_all decide),
   c7_tolerance_amended.1 (1 / 2)⟩

/-- Claim C8 (counterexample): a node line whose x-token `1.0.0` matches
the line pattern's character class but is not a valid float makes the
column conversion raise, aborting the whole parse (`none`) and losing the
well-formed row too — instead of merely excluding the malformed row. -/
theorem c8_malformed_counterexample :
    parse_nodes [badNodeLine, goodNodeLine] = none ∧
    parse_nodes [goodNodeLine] = some [⟨2, 1, 2, 3, 3, 7⟩] := by
  with_unfolding_all decide

/-- Claim C8 (amended): a line that fails the node-line pattern (for
example a token with characters outside `[-+0-9.Ee]`) is excluded from
the parse, leaving the remaining rows exactly as they would parse without
it; only class-matching tokens that are not valid floats abort the parse. -/
theorem c8_mismatch_row_excluded (pre post : List (List Char))
    (bad : List Char) (h : matchNodeLine bad = none) :
    parse_nodes (pre ++ bad :: post) = parse_nodes (pre ++ post) := by
  unfold parse_nodes
  rw [List.filterMap_append, List.filterMap_cons, h, List.filterMap_append]

/-- Witness for the amended claim C8: the all-letters token line is
excluded and the good row still parses. -/
theorem c8_mismatch_row_excluded_witness :
    matchNodeLine alphaNodeLine = none ∧
    parse_nodes ([] ++ alphaNodeLine :: [goodNodeLine]) =
      parse_nodes ([] ++ [goodNodeLine]) :=
  ⟨by with_unfolding_all decide, c8_mismatch_row_excluded [] [goodNodeLine] alphaNodeLine (by with_unfolding_all decide)⟩

theorem tc_of_fixed_split (xf yf yc xo : ℚ) (fixed : List Q3) (p : Q3) :
    tc_of xf yf yc xo fixed p =
      if fixed.any (fun f => isclose3 p f) then 7
      else tc_of xf yf yc xo [] p := by
  unfold tc_of
  simp only [List.any_nil, Bool.false_eq_true, if_false]

theorem tc_of_eq_rule_spec (xf yf yc xo : ℚ) (p : Q3) :
    tc_of xf yf yc xo [] p = tc_rule_spec xf yf yc xo p := by
  unfold tc_of tc_rule_spec
  simp only [List.any_nil, Bool.false_eq_true, if_false, Bool.or_eq_true,
    Bool.and_eq_true, decide_eq_true_eq, Bool.not_eq_true',
    Bool.not_eq_true, and_assoc]

/-- Claim C4: for every generated node the translational constraint is
computed exactly by the claimed rule order — start at 3, set 5 under the
loosely-bound `y≈0 ∨ (y≈cutout-height ∧ x>offset ∧ y≉top)` condition, then
set 6 (overriding) under the symmetric x condition — and the rotational
constraint is always 7.  (`tc_rule_spec` is stated from the claim's
wording; `add_constraints` is the source's computation.) -/
theorem c4_tc_rule_order (nodes : List (ℕ × Q3)) (outer cutout coff : Q3) :
    ((add_constraints nodes outer cutout coff []).map NodeRow.tc =
      nodes.map (fun n => tc_rule_spec outer.1 outer.2.1
        (eff_yc outer cutout coff) (eff_xo outer cutout coff) n.2)) ∧
    ∀ fixed : List Q3,
      (add_constraints nodes outer cutout coff fixed).map NodeRow.rc =
        List.replicate nodes.length 7 := by
  constructor
  · unfold add_constraints
    rw [List.map_map]
    exact List.map_congr_left (fun n _ => tc_of_eq_rule_spec _ _ _ _ _)
  · intro fixed
    induction nodes with
    | nil => rfl
    | cons n ns ih =>
      simpa [add_constraints, List.replicate_succ] using ih

/-- Claim C5: a node whose coordinates match some entry of the
fixed-coordinate list (componentwise `np.isclose`) is assigned tc = 7,
overriding whatever the edge rules would have produced, because the
fixed-coordinate check runs last and unconditionally. -/
theorem c5_fixed_coords_override (nodes : List (ℕ × Q3))
    (outer cutout coff : Q3) (fixed : List Q3) :
    (add_constraints nodes outer cutout coff fixed).map NodeRow.tc =
      nodes.map (fun n =>
        if fixed.any (fun f => isclose3 n.2 f) then 7
        else tc_of outer.1 outer.2.1 (eff_yc outer cutout coff)
          (eff_xo outer cutout coff) [] n.2) := by
  unfold add_constraints
  rw [List.map_map]
  exact List.map_congr_left (fun n _ => tc_of_fixed_split _ _ _ _ _ _)

theorem element_node_IDs_eq_traverseOpt (m : (ℤ × ℤ × ℤ) → Option ℕ)
    (i j k : ℤ) :
    element_node_IDs m i j k = traverseOpt m (cornerOrder i j k) := by
  unfold element_node_IDs cornerOrder
  rcases h1 : m (i, j, k) with _ | a
  · simp [traverseOpt, h1]
  rcases h2 : m (i + 1, j, k) with _ | b
  · simp [traverseOpt, h1, h2]
  rcases h3 : m (i + 1, j + 1, k) with _ | c
  · simp [traverseOpt, h1, h2, h3]
  rcases h4 : m (i, j + 1, k) with _ | d
  · simp [traverseOpt, h1, h2, h3, h4]
  rcases h5 : m (i, j, k + 1) with _ | e
  · simp [traverseOpt, h1, h2, h3, h4, h5]
  rcases h6 : m (i + 1, j, k + 1) with _ | f
  · simp [traverseOpt, h1, h2, h3, h4, h5, h6]
  rcases h7 : m (i + 1, j + 1, k + 1) with _ | g
  · simp [traverseOpt, h1, h2, h3, h4, h5, h6, h7]
  rcases h8 : m (i, j + 1, k + 1) with _ | h
  · simp [traverseOpt, h1, h2, h3, h4, h5, h6, h7, h8]
  simp [traverseOpt, h1, h2, h3, h4, h5, h6, h7, h8]

/-- Claim C6: `element_node_IDs` succeeds exactly when all 8 corner grid
indices — bottom face (i,j,k), (i+1,j,k), (i+1,j+1,k), (i,j+1,k), then the
same four at k+1 — are present in the grid-index map, in which case its
result is exactly those 8 node IDs in that fixed order; if any lookup
misses, the result is `none` and (by the `filterMap` structure of
`element_bodies`) the candidate cell contributes no element at all. -/
theorem c6_all_eight_or_nothing (m : (ℤ × ℤ × ℤ) → Option ℕ) (i j k : ℤ) :
    (element_node_IDs m i j k = traverseOpt m (cornerOrder i j k)) ∧
    ((∃ c ∈ cornerOrder i j k, m c = none) →
      element_node_IDs m i j k = none) ∧
    (∀ vs, element_node_IDs m i j k = some vs →
      (∀ c ∈ cornerOrder i j k, (m c).isSome) ∧
      vs = [(m (i, j, k)).getD 0, (m (i + 1, j, k)).getD 0,
            (m (i + 1, j + 1, k)).getD 0, (m (i, j + 1, k)).getD 0,
            (m (i, j, k + 1)).getD 0, (m (i + 1, j, k + 1)).getD 0,
            (m (i + 1, j + 1, k + 1)).getD 0, (m (i, j + 1, k + 1)).getD 0]) := by
  have h1 := element_node_IDs_eq_traverseOpt m i j k
  refine ⟨h1, ?_, ?_⟩
  · rintro ⟨c, hc, hn⟩
    rw [h1]
    exact traverseOpt_eq_none_of_mem hc hn
  · intro vs hvs
    unfold element_node_IDs at hvs
    rcases ha : m (i, j, k) with _ | a <;> rw [ha] at hvs
    · exact absurd hvs (by simp)
    rcases hb : m (i + 1, j, k) with _ | b <;> rw [hb] at hvs
    · exact absurd hvs (by simp)
    rcases hc : m (i + 1, j + 1, k) with _ | c <;> rw [hc] at hvs
    · exact absurd hvs (by simp)
    rcases hd : m (i, j + 1, k) with _ | d <;> rw [hd] at hvs
    · exact absurd hvs (by simp)
    rcases he : m (i, j, k + 1) with _ | e <;> rw [he] at hvs
    · exact absurd hvs (by simp)
    rcases hf : m (i + 1, j, k + 1) with _ | f <;> rw [hf] at hvs
    · exact absurd hvs (by simp)
    rcases hg : m (i + 1, j + 1, k + 1) with _ | g <;> rw [hg] at hvs
    · exact absurd hvs (by simp)
    rcases hh : m (i, j + 1, k + 1) with _ | h <;> rw [hh] at hvs
    · exact absurd hvs (by simp)
    constructor
    · intro corner hcorner
      simp only [cornerOrder, List.mem_cons, List.not_mem_nil, or_false] at hcorner
      rcases hcorner with rfl | rfl | rfl | rfl | rfl | rfl | rfl | rfl <;>
        simp [ha, hb, hc, hd, he, hf, hg, hh]
    · simp only [Option.some.injEq] at hvs
      subst hvs
      simp [ha, hb, hc, hd, he, hf, hg, hh]

/-- Witness for C6 at a concrete one-entry map: the corner (1,0,0) of the
cell at the origin is absent, so `element_node_IDs` yields `none`. -/
theorem c6_all_eight_or_nothing_witness :
    element_node_IDs oneEntryMap 0 0 0 = none :=
  (c6_all_eight_or_nothing oneEntryMap 0 0 0).2.1
    ⟨(1, 0, 0), by with_unfolding_all decide, by with_unfolding_all decide⟩

/-! ## Range and region lemmas -/

theorem mem_pyRange {i a b : ℤ} : i ∈ pyRange a b ↔ a ≤ i ∧ i < b := by
  unfold pyRange
  simp only [List.mem_map, List.mem_range]
  constructor
  · rintro ⟨n, hn, rfl⟩
    omega
  · intro ⟨h1, h2⟩
    exact ⟨(i - a).toNat, by omega, by omega⟩

theorem length_pyRange (a b : ℤ) : (pyRange a b).length = (b - a).toNat := by
  unfold pyRange
  rw [List.length_map, List.length_range]

theorem nodup_pyRange (a b : ℤ) : (pyRange a b).Nodup := by
  unfold pyRange
  exact (List.nodup_range _).map (fun m n h => by omega)

theorem nodup_flatMap_of_disjoint {l : List α} {f : α → List β}
    (hl : l.Nodup) (hf : ∀ a ∈ l, (f a).Nodup)
    (hd : ∀ a₁ ∈ l, ∀ a₂ ∈ l, a₁ ≠ a₂ → ∀ b ∈ f a₁, b ∉ f a₂) :
    (l.flatMap f).Nodup := by
  induction l with
  | nil => simp
  | cons a l ih =>
    rw [List.flatMap_cons, List.nodup_append]
    refine ⟨hf a (List.mem_cons_self a l), ?_, ?_⟩
    · exact ih (List.Nodup.of_cons hl) (fun a' ha' => hf a' (List.mem_cons_of_mem a ha'))
        (fun a₁ h₁ a₂ h₂ hne => hd a₁ (List.mem_cons_of_mem a h₁)
          a₂ (List.mem_cons_of_mem a h₂) hne)
    · intro b hb hb'
      rcases List.mem_flatMap.mp hb' with ⟨a', ha', hba'⟩
      have hne : a ≠ a' := by
        rintro rfl
        exact (List.nodup_cons.mp hl).1 ha'
      exact hd a (List.mem_cons_self a l) a' (List.mem_cons_of_mem a ha') hne b hb hba'

theorem mem_region {p : ℤ × ℤ × ℤ} {z0 z1 y0 y1 x0 x1 : ℤ} :
    p ∈ region z0 z1 y0 y1 x0 x1 ↔
      (x0 ≤ p.1 ∧ p.1 < x1) ∧ (y0 ≤ p.2.1 ∧ p.2.1 < y1) ∧
        (z0 ≤ p.2.2 ∧ p.2.2 < z1) := by
  simp only [region, List.mem_flatMap, List.mem_map]
  constructor
  · rintro ⟨z, hz, y, hy, x, hx, rfl⟩
    exact ⟨mem_pyRange.mp hx, mem_pyRange.mp hy, mem_pyRange.mp hz⟩
  · intro ⟨hx, hy, hz⟩
    exact ⟨p.2.2, mem_pyRange.mpr hz, p.2.1, mem_pyRange.mpr hy, p.1,
      mem_pyRange.mpr hx, rfl⟩

theorem region_nodup (z0 z1 y0 y1 x0 x1 : ℤ) :
    (region z0 z1 y0 y1 x0 x1).Nodup := by
  apply nodup_flatMap_of_disjoint (nodup_pyRange _ _)
  · intro z _
    apply nodup_flatMap_of_disjoint (nodup_pyRange _ _)
    · intro y _
      exact (nodup_pyRange _ _).map (fun a b h => by
        simpa using congrArg Prod.fst h)
    · intro y1 _ y2 _ hne b hb1 hb2
      rcases List.mem_map.mp hb1 with ⟨a1, _, rfl⟩
      rcases List.mem_map.mp hb2 with ⟨a2, _, h⟩
      simp only [Prod.mk.injEq] at h
      exact hne h.2.1.symm
  · intro z1 _ z2 _ hne b hb1 hb2
    simp only [List.mem_flatMap, List.mem_map] at hb1 hb2
    rcases hb1 with ⟨y1, _, x1, _, rfl⟩
    rcases hb2 with ⟨y2, _, x2, _, h⟩
    simp only [Prod.mk.injEq] at h
    exact hne h.2.2.symm

theorem length_flatMap_const {l : List α} {f : α → List β} {c : ℕ}
    (h : ∀ a ∈ l, (f a).length = c) : (l.flatMap f).length = l.length * c := by
  induction l with
  | nil => simp
  | cons a l ih =>
    rw [List.flatMap_cons, List.length_append, h a (List.mem_cons_self a l),
      ih (fun a' ha' => h a' (List.mem_cons_of_mem a ha')), List.length_cons]
    ring

theorem length_region (z0 z1 y0 y1 x0 x1 : ℤ) :
    (region z0 z1 y0 y1 x0 x1).length =
      (z1 - z0).toNat * ((y1 - y0).toNat * (x1 - x0).toNat) := by
  unfold region
  have hz : ∀ z ∈ pyRange z0 z1,
      ((pyRange y0 y1).flatMap (fun y =>
        (pyRange x0 x1).map (fun x => (x, y, z)))).length =
      (y1 - y0).toNat * (x1 - x0).toNat := by
    intro z _
    have hy : ∀ y ∈ pyRange y0 y1,
        ((pyRange x0 x1).map (fun x => (x, y, z))).length = (x1 - x0).toNat := by
      intro y _
      rw [List.length_map, length_pyRange]
    rw [length_flatMap_const hy, length_pyRange]
  rw [length_flatMap_const hz, length_pyRange]

theorem enumFrom_map_snd_eq (n : ℕ) (l : List α) :
    (List.enumFrom n l).map Prod.snd = l := by
  induction l generalizing n with
  | nil => rfl
  | cons a l ih => simp [List.enumFrom, ih]

theorem enumFrom_map_fst_eq (n : ℕ) (l : List α) :
    (List.enumFrom n l).map Prod.fst = List.range' n l.length := by
  induction l generalizing n with
  | nil => rfl
  | cons a l ih => simp [List.enumFrom, List.range', ih]

theorem mem_gridNodes_r7 {p : ℤ × ℤ × ℤ} {nxf nyf nzf nxi_c_o nyf_c : ℤ} :
    p ∈ (pyRange 0 (nzf + 1)).flatMap (fun z =>
      (pyRange (nxi_c_o + 1) (nxf + 1)).map (fun x => (x, nyf_c, z)) ++
      (pyRange (nyf_c + 1) (nyf + 1)).flatMap (fun y =>
        (pyRange (nxi_c_o + 1) (nxf + 1)).map (fun x => (x, y, z)))) ↔
    (0 ≤ p.2.2 ∧ p.2.2 < nzf + 1) ∧ (nxi_c_o + 1 ≤ p.1 ∧ p.1 < nxf + 1) ∧
      (p.2.1 = nyf_c ∨ (nyf_c + 1 ≤ p.2.1 ∧ p.2.1 < nyf + 1)) := by
  simp only [List.mem_flatMap, List.mem_append, List.mem_map, mem_pyRange]
  constructor
  · rintro ⟨z, hz, h⟩
    rcases h with ⟨x, hx, rfl⟩ | ⟨y, hy, x, hx, rfl⟩
    · exact ⟨hz, hx, Or.inl rfl⟩
    · exact ⟨hz, hx, Or.inr hy⟩
  · rintro ⟨hz, hx, hy⟩
    refine ⟨p.2.2, hz, ?_⟩
    rcases hy with hy | hy
    · exact Or.inl ⟨p.1, hx, by rw [← hy]⟩
    · exact Or.inr ⟨p.2.1, hy, p.1, hx, rfl⟩

theorem nodup_gridNodes_r7 (nxf nyf nzf nxi_c_o nyf_c : ℤ) :
    ((pyRange 0 (nzf + 1)).flatMap (fun z =>
      (pyRange (nxi_c_o + 1) (nxf + 1)).map (fun x => (x, nyf_c, z)) ++
      (pyRange (nyf_c + 1) (nyf + 1)).flatMap (fun y =>
        (pyRange (nxi_c_o + 1) (nxf + 1)).map (fun x => (x, y, z))))).Nodup := by
  apply nodup_flatMap_of_disjoint (nodup_pyRange _ _)
  · intro z _
    rw [List.nodup_append]
    refine ⟨?_, ?_, ?_⟩
    · exact (nodup_pyRange _ _).map (fun a b h => by
        simp only [Prod.mk.injEq] at h
        exact h.1)
    · apply nodup_flatMap_of_disjoint (nodup_pyRange _ _)
      · intro y _
        exact (nodup_pyRange _ _).map (fun a b h => by
          simp only [Prod.mk.injEq] at h
          exact h.1)
      · intro y1 _ y2 _ hne b hb1 hb2
        rcases List.mem_map.mp hb1 with ⟨a1, _, rfl⟩
        rcases List.mem_map.mp hb2 with ⟨a2, _, h⟩
        simp only [Prod.mk.injEq] at h
        exact hne h.2.1.symm
    · intro b hb hb'
      rcases List.mem_map.mp hb with ⟨a1, _, rfl⟩
      simp only [List.mem_flatMap, List.mem_map, mem_pyRange] at hb'
      rcases hb' with ⟨y, hy, x, _, h⟩
      simp only [Prod.mk.injEq] at h
      omega
  · intro z1 _ z2 _ hne b hb1 hb2
    simp only [List.mem_append, List.mem_flatMap, List.mem_map] at hb1 hb2
    have e1 : b.2.2 = z1 := by
      rcases hb1 with ⟨x, _, rfl⟩ | ⟨y, _, x, _, rfl⟩ <;> rfl
    have e2 : b.2.2 = z2 := by
      rcases hb2 with ⟨x, _, rfl⟩ | ⟨y, _, x, _, rfl⟩ <;> rfl
    exact hne (e1 ▸ e2)

theorem nodup_append_of {l1 l2 : List α} (h1 : l1.Nodup) (h2 : l2.Nodup)
    (hd : ∀ p ∈ l1, p ∈ l2 → False) : (l1 ++ l2).Nodup := by
  rw [List.nodup_append]
  exact ⟨h1, h2, fun a ha hb => hd a ha hb⟩

theorem gridNodes_nodup (nxf nyf nzf nxf_e nyf_e nzf_e nxi_c_o nyf_c : ℤ)
    (hx : nxf_e ≤ nxi_c_o) (hy : nyf_e ≤ nyf_c) :
    (gridNodes nxf nyf nzf nxf_e nyf_e nzf_e nxi_c_o nyf_c).Nodup := by
  unfold gridNodes
  refine nodup_append_of ?_ (nodup_gridNodes_r7 _ _ _ _ _) ?_
  · refine nodup_append_of ?_ (region_nodup _ _ _ _ _ _) ?_
    · refine nodup_append_of ?_ (region_nodup _ _ _ _ _ _) ?_
      · refine nodup_append_of ?_ (region_nodup _ _ _ _ _ _) ?_
        · refine nodup_append_of ?_ (region_nodup _ _ _ _ _ _) ?_
          · exact nodup_append_of (region_nodup _ _ _ _ _ _)
              (region_nodup _ _ _ _ _ _)
              (fun p hp1 hp2 => by rw [mem_region] at hp1 hp2; omega)
          · intro p hp1 hp2
            simp only [List.mem_append, mem_region] at hp1
            rw [mem_region] at hp2
            omega
        · intro p hp1 hp2
          simp only [List.mem_append, mem_region] at hp1
          rw [mem_region] at hp2
          omega
      · intro p hp1 hp2
        simp only [List.mem_append, mem_region] at hp1
        rw [mem_region] at hp2
        omega
    · intro p hp1 hp2
      simp only [List.mem_append, mem_region] at hp1
      rw [mem_region] at hp2
      omega
  · intro p hp1 hp2
    simp only [List.mem_append, mem_region] at hp1
    rw [mem_gridNodes_r7] at hp2
    omega

/-- Claim C9 (amended): provided the effective cutout x-offset grid index
is at least the explosive x-extent grid index and the effective cutout
height grid index is at least the explosive y-extent grid index, every
lattice point of the decomposed domain is emitted exactly once (no two
nodes share a coordinate triple), and node IDs are dense, contiguous and
1-based in emission order. -/
theorem c9_no_duplicates_amended (es : ℚ) (outer expl cutout coff : Q3)
    (ns : List (ℕ × Q3)) (hes : 0 < es)
    (hgen : generate_nodes es outer expl cutout coff = some ns)
    (hx : node_to_index es expl.1 ≤ node_to_index es (eff_xo outer cutout coff))
    (hy : node_to_index es expl.2.1 ≤
      node_to_index es (eff_yc outer cutout coff)) :
    (ns.map (fun p => p.2)).Nodup ∧
      ns.map Prod.fst = List.range' 1 ns.length := by
  unfold generate_nodes at hgen
  split at hgen
  · injection hgen with hgen
    subst hgen
    constructor
    · rw [enumFrom_map_snd_eq]
      apply List.Nodup.map ?_ (gridNodes_nodup _ _ _ _ _ _ _ _ hx hy)
      intro p q h
      simp only [Prod.mk.injEq] at h
      obtain ⟨h1, h2, h3⟩ := h
      have hne : es ≠ 0 := ne_of_gt hes
      have e1 : p.1 = q.1 := by exact_mod_cast mul_right_cancel₀ hne h1
      have e2 : p.2.1 = q.2.1 := by exact_mod_cast mul_right_cancel₀ hne h2
      have e3 : p.2.2 = q.2.2 := by exact_mod_cast mul_right_cancel₀ hne h3
      exact Prod.ext e1 (Prod.ext e2 e3)
    · rw [enumFrom_map_fst_eq, List.enumFrom_length]
  · exact absurd hgen (by simp)

/-- Witness for the amended claim C9 at the concrete spec scenario:
element size 1, outer (2,2,1), explosive (1,1,1), no cutout. -/
theorem c9_no_duplicates_amended_witness :
    (sc_ns.map (fun p => p.2)).Nodup ∧
      sc_ns.map Prod.fst = List.range' 1 sc_ns.length :=
  c9_no_duplicates_amended 1 (2, 2, 1) (1, 1, 1) (0, 0, 0) (0, 0, 0) sc_ns
    (by norm_num) (by with_unfolding_all decide)
    (by with_unfolding_all decide) (by with_unfolding_all decide)

/-! ## Lemmas for the no-cutout counting claim -/

theorem truncQ_intCast (n : ℤ) : truncQ ((n : ℤ) : ℚ) = n := by
  unfold truncQ qceil qfloor
  rcases lt_or_le ((n : ℚ)) 0 with h | h
  · rw [if_pos h]
    simp
  · rw [if_neg (not_lt.mpr h)]
    simp

theorem rintQ_intCast_add_small (n : ℤ) (ε : ℚ) (h0 : 0 ≤ ε)
    (h1 : ε < 1 / 2) : rintQ ((n : ℚ) + ε) = n := by
  have hq : qfloor ((n : ℚ) + ε) = n := by
    rw [qfloor_eq]
    rw [Int.floor_eq_iff]
    constructor
    · linarith
    · push_cast
      linarith
  have h2 : (n : ℚ) + ε - (n : ℤ) = ε := by
    push_cast
    ring
  unfold rintQ
  simp only [hq, h2, if_pos h1]

theorem rintQ_intCast (n : ℤ) : rintQ ((n : ℤ) : ℚ) = n := by
  have := rintQ_intCast_add_small n 0 le_rfl (by norm_num)
  simpa using this

theorem snap_scale {es : ℚ} (hes : 0 < es) (i : ℤ) :
    snap_index (((i : ℚ) * es) * (1 / es)) = i := by
  have hne : es ≠ 0 := ne_of_gt hes
  have h1 : ((i : ℚ) * es) * (1 / es) = (i : ℚ) := by
    field_simp
  rw [h1]
  unfold snap_index
  exact rintQ_intCast_add_small i float_tol (by norm_num [float_tol])
    (by norm_num [float_tol])

theorem allclose0_zero : allclose0 ((0 : ℚ), (0 : ℚ), (0 : ℚ)) = true := by
  with_unfolding_all decide

theorem eff_xo_zero (outer : Q3) :
    eff_xo outer ((0 : ℚ), (0 : ℚ), (0 : ℚ)) ((0 : ℚ), (0 : ℚ), (0 : ℚ)) =
      outer.1 := by
  unfold eff_xo
  rw [allclose0_zero]
  rfl

theorem eff_yc_zero (outer : Q3) :
    eff_yc outer ((0 : ℚ), (0 : ℚ), (0 : ℚ)) ((0 : ℚ), (0 : ℚ), (0 : ℚ)) =
      outer.2.1 := by
  unfold eff_yc
  rw [allclose0_zero]
  rfl

theorem buildMap_aux (l : List ((ℤ × ℤ × ℤ) × ℕ))
    (m0 : (ℤ × ℤ × ℤ) → Option ℕ) (k : ℤ × ℤ × ℤ)
    (h : (m0 k).isSome = true ∨ k ∈ l.map Prod.fst) :
    ((l.foldl (fun m e => fun k' => if k' = e.1 then some e.2 else m k') m0)
      k).isSome = true := by
  induction l generalizing m0 with
  | nil =>
    rcases h with h | h
    · exact h
    · simp at h
  | cons e l ih =>
    rw [List.foldl_cons]
    apply ih
    by_cases hke : k = e.1
    · left
      simp [hke]
    · rcases h with h | h
      · left
        simpa [hke] using h
      · rcases List.mem_cons.mp h with h | h
        · exact absurd h hke
        · exact Or.inr h

theorem buildMap_isSome_of_mem {entries : List ((ℤ × ℤ × ℤ) × ℕ)}
    {k : ℤ × ℤ × ℤ} (hk : k ∈ entries.map Prod.fst) :
    (buildMap entries k).isSome = true :=
  buildMap_aux entries (fun _ => none) k (Or.inr hk)

theorem traverseOpt_isSome_of {f : α → Option β} {l : List α}
    (h : ∀ a ∈ l, (f a).isSome = true) : (traverseOpt f l).isSome = true := by
  induction l with
  | nil => rfl
  | cons a as ih =>
    unfold traverseOpt
    rcases ha : f a with _ | b
    · exact absurd (h a (List.mem_cons_self a as)) (by simp [ha])
    · rcases hr : traverseOpt f as with _ | bs
      · exact absurd (ih (fun a' ha' => h a' (List.mem_cons_of_mem a ha')))
          (by simp [hr])
      · rfl

theorem length_filterMap_of_all_some {f : α → Option β} {l : List α}
    (h : ∀ a ∈ l, (f a).isSome = true) : (l.filterMap f).length = l.length := by
  induction l with
  | nil => rfl
  | cons a as ih =>
    rw [List.filterMap_cons]
    rcases ha : f a with _ | b
    · exact absurd (h a (List.mem_cons_self a as)) (by simp [ha])
    · change (b :: List.filterMap f as).length = (a :: as).length
      rw [List.length_cons, List.length_cons,
        ih (fun a' ha' => h a' (List.mem_cons_of_mem a ha'))]

theorem mem_gridNodes_box {p : ℤ × ℤ × ℤ} {nxf nyf nzf nxf_e nyf_e : ℤ}
    (hp : (0 ≤ p.1 ∧ p.1 ≤ nxf) ∧ (0 ≤ p.2.1 ∧ p.2.1 ≤ nyf) ∧
      (0 ≤ p.2.2 ∧ p.2.2 ≤ nzf)) :
    p ∈ gridNodes nxf nyf nzf nxf_e nyf_e nzf nxf nyf := by
  unfold gridNodes
  simp only [List.mem_append, mem_region, mem_gridNodes_r7]
  omega

theorem pyRange_self (a : ℤ) : pyRange a a = [] := by
  unfold pyRange
  simp

theorem map_enumFrom_of_snd (n : ℕ) (l : List α) (g : α → β) :
    (List.enumFrom n l).map (fun e => g e.2) = l.map g := by
  conv_rhs => rw [← enumFrom_map_snd_eq n l]
  rw [List.map_map]
  rfl

theorem gridNodes_length (nxf nyf nzf nxf_e nyf_e : ℤ)
    (h1 : 0 ≤ nxf_e) (h2 : nxf_e ≤ nxf) (h3 : 0 ≤ nyf_e) (h4 : nyf_e ≤ nyf)
    (h5 : 0 ≤ nzf) :
    ((gridNodes nxf nyf nzf nxf_e nyf_e nzf nxf nyf).length : ℤ) =
      (nxf + 1) * ((nyf + 1) * (nzf + 1)) := by
  unfold gridNodes
  have hz7 : ∀ z ∈ pyRange 0 (nzf + 1),
      ((pyRange (nxf + 1) (nxf + 1)).map (fun x => (x, nyf, z)) ++
        (pyRange (nyf + 1) (nyf + 1)).flatMap (fun y =>
          (pyRange (nxf + 1) (nxf + 1)).map (fun x => (x, y, z)))).length
        = 0 := by
    intro z _
    rw [pyRange_self, pyRange_self]
    simp
  simp only [List.length_append, length_region, length_flatMap_const hz7]
  have e1 : ((nzf + 1 - 0).toNat : ℤ) = nzf + 1 := by
    rw [Int.toNat_of_nonneg (by omega)]
    ring
  have e2 : ((nyf_e + 1 - 0).toNat : ℤ) = nyf_e + 1 := by
    rw [Int.toNat_of_nonneg (by omega)]
    ring
  have e3 : ((nxf_e + 1 - 0).toNat : ℤ) = nxf_e + 1 := by
    rw [Int.toNat_of_nonneg (by omega)]
    ring
  have e4 : ((nyf + 1 - (nyf_e + 1)).toNat : ℤ) = nyf - nyf_e := by
    rw [Int.toNat_of_nonneg (by omega)]
    ring
  have e5 : ((nxf + 1 - (nxf_e + 1)).toNat : ℤ) = nxf - nxf_e := by
    rw [Int.toNat_of_nonneg (by omega)]
    ring
  have e6 : ((nyf + 1 - (nyf + 1)).toNat : ℤ) = 0 := by
    rw [Int.toNat_of_nonneg (by omega)]
    ring
  push_cast
  rw [e1, e2, e3, e4, e5, e6]
  ring

theorem element_bodies_box_length (m : (ℤ × ℤ × ℤ) → Option ℕ)
    (nxf nyf nzf nxf_e nyf_e : ℤ)
    (h1 : 0 ≤ nxf_e) (h2 : nxf_e ≤ nxf) (h3 : 0 ≤ nyf_e) (h4 : nyf_e ≤ nyf)
    (h5 : 0 ≤ nzf)
    (hm : ∀ i j k : ℤ, 0 ≤ i → i ≤ nxf → 0 ≤ j → j ≤ nyf →
      0 ≤ k → k ≤ nzf → (m (i, j, k)).isSome = true) :
    ((element_bodies m nxf nyf nzf nxf_e nyf_e nzf nxf nyf true).length : ℤ) =
      nzf * (nyf * nxf) := by
  have hsome : ∀ part : ℕ, ∀ i j k : ℤ,
      0 ≤ i → i < nxf → 0 ≤ j → j < nyf → 0 ≤ k → k < nzf →
      ((element_node_IDs m i j k).map
        (fun ns => part :: ns)).isSome = true := by
    intro part i j k hc1 hc2 hc3 hc4 hc5 hc6
    rw [Option.isSome_map']
    rw [element_node_IDs_eq_traverseOpt]
    apply traverseOpt_isSome_of
    intro corner hcorner
    simp only [cornerOrder, List.mem_cons, List.not_mem_nil, or_false]
      at hcorner
    rcases hcorner with rfl | rfl | rfl | rfl | rfl | rfl | rfl | rfl <;>
      exact hm _ _ _ (by omega) (by omega) (by omega) (by omega) (by omega)
        (by omega)
  unfold element_bodies
  rw [if_pos (show (true : Bool) = true from rfl),
    if_neg (show ¬(nyf < nyf ∧ nxf < nxf) by omega)]
  have hl1 : ((region 0 nzf 0 nyf_e 0 nxf_e).filterMap (fun c =>
      (element_node_IDs m c.1 c.2.1 c.2.2).map
        (fun ns => part_expl :: ns))).length =
      (region 0 nzf 0 nyf_e 0 nxf_e).length := by
    apply length_filterMap_of_all_some
    intro c hc
    rw [mem_region] at hc
    exact hsome part_expl c.1 c.2.1 c.2.2 (by omega) (by omega) (by omega)
      (by omega) (by omega) (by omega)
  have hl2 : ((region 0 nzf nyf_e nyf 0 nxf_e).filterMap (fun c =>
      (element_node_IDs m c.1 c.2.1 c.2.2).map
        (fun ns => part_nonexpl :: ns))).length =
      (region 0 nzf nyf_e nyf 0 nxf_e).length := by
    apply length_filterMap_of_all_some
    intro c hc
    rw [mem_region] at hc
    exact hsome part_nonexpl c.1 c.2.1 c.2.2 (by omega) (by omega) (by omega)
      (by omega) (by omega) (by omega)
  have hl3 : ((region 0 nzf 0 nyf nxf_e nxf).filterMap (fun c =>
      (element_node_IDs m c.1 c.2.1 c.2.2).map
        (fun ns => part_nonexpl :: ns))).length =
      (region 0 nzf 0 nyf nxf_e nxf).length := by
    apply length_filterMap_of_all_some
    intro c hc
    rw [mem_region] at hc
    exact hsome part_nonexpl c.1 c.2.1 c.2.2 (by omega) (by omega) (by omega)
      (by omega) (by omega) (by omega)
  simp only [List.length_append, hl1, hl2, hl3, List.length_nil,
    length_region]
  have e1 : ((nzf - 0).toNat : ℤ) = nzf := by
    rw [Int.toNat_of_nonneg (by omega)]
    ring
  have e2 : ((nyf_e - 0).toNat : ℤ) = nyf_e := by
    rw [Int.toNat_of_nonneg (by omega)]
    ring
  have e3 : ((nxf_e - 0).toNat : ℤ) = nxf_e := by
    rw [Int.toNat_of_nonneg (by omega)]
    ring
  have e4 : ((nyf - nyf_e).toNat : ℤ) = nyf - nyf_e := by
    rw [Int.toNat_of_nonneg (by omega)]
  have e5 : ((nyf - 0).toNat : ℤ) = nyf := by
    rw [Int.toNat_of_nonneg (by omega)]
    ring
  have e6 : ((nxf - nxf_e).toNat : ℤ) = nxf - nxf_e := by
    rw [Int.toNat_of_nonneg (by omega)]
  push_cast
  rw [e1, e2, e3, e4, e5, e6]
  ring

theorem length_generate_elements (nodes : List NodeRow) (es : ℚ)
    (outer expl cutout coff : Q3) :
    (generate_elements nodes es outer expl cutout coff).length =
      (element_bodies (index_to_id nodes es)
        (node_to_index es ((truncQ outer.1 : ℤ) : ℚ))
        (node_to_index es ((truncQ outer.2.1 : ℤ) : ℚ))
        (node_to_index es ((truncQ outer.2.2 : ℤ) : ℚ))
        (node_to_index es ((truncQ expl.1 : ℤ) : ℚ))
        (node_to_index es ((truncQ expl.2.1 : ℤ) : ℚ))
        (node_to_index es ((truncQ expl.2.2 : ℤ) : ℚ))
        (node_to_index es (((if allclose0 cutout && allclose0 coff
          then truncQ outer.1 else truncQ coff.1) : ℤ) : ℚ))
        (node_to_index es (((if allclose0 cutout && allclose0 coff
          then truncQ outer.2.1 else truncQ cutout.2.1) : ℤ) : ℚ))
        (allclose0 cutout && allclose0 coff)).length := by
  unfold generate_elements
  rw [List.length_map, List.enumFrom_length]

theorem index_map_covers (es : ℚ) (hes : 0 < es) (grid : List (ℤ × ℤ × ℤ))
    (outer cutout coff : Q3) (fixed : List Q3) (p : ℤ × ℤ × ℤ)
    (hp : p ∈ grid) :
    (index_to_id (add_constraints (List.enumFrom 1 (grid.map
      (fun q => ((q.1 : ℚ) * es, (q.2.1 : ℚ) * es, (q.2.2 : ℚ) * es))))
      outer cutout coff fixed) es p).isSome = true := by
  unfold index_to_id add_constraints
  apply buildMap_isSome_of_mem
  have h1 : ((p.1 : ℚ) * es, (p.2.1 : ℚ) * es, (p.2.2 : ℚ) * es) ∈
      grid.map (fun q => ((q.1 : ℚ) * es, (q.2.1 : ℚ) * es, (q.2.2 : ℚ) * es)) :=
    List.mem_map_of_mem _ hp
  have h2 : ((p.1 : ℚ) * es, (p.2.1 : ℚ) * es, (p.2.2 : ℚ) * es) ∈
      (List.enumFrom 1 (grid.map
        (fun q => ((q.1 : ℚ) * es, (q.2.1 : ℚ) * es, (q.2.2 : ℚ) * es)))).map
        Prod.snd := by
    rw [enumFrom_map_snd_eq]
    exact h1
  obtain ⟨e, he, hsnd⟩ := List.mem_map.mp h2
  obtain ⟨eid, ecoords⟩ := e
  simp only at hsnd
  subst hsnd
  refine List.mem_map.mpr ⟨_, List.mem_map.mpr ⟨_, List.mem_map.mpr
    ⟨_, he, rfl⟩, rfl⟩, ?_⟩
  simp only [snap_scale hes]

/-- Claim C2 (amended): for a domain with cutout extent and offset exactly
zero whose dimensions are integer-valued, which passes the divisibility
check, with the explosive extent contained in the outer extent and the
explosive z grid count equal to the outer z grid count, the node count is
(nx+1)(ny+1)(nz+1) and the element count is nx·ny·nz, where nx, ny, nz
are the outer extent's lengths divided by the element size and rounded to
the nearest integer. -/
theorem c2_counts_amended (es : ℚ) (Xf Yf Zf Xe Ye Ze : ℤ)
    (ns : List (ℕ × Q3)) (hes : 0 < es)
    (hgen : generate_nodes es ((Xf : ℚ), (Yf : ℚ), (Zf : ℚ))
      ((Xe : ℚ), (Ye : ℚ), (Ze : ℚ)) ((0 : ℚ), (0 : ℚ), (0 : ℚ))
      ((0 : ℚ), (0 : ℚ), (0 : ℚ)) = some ns)
    (hze : node_to_index es ((Ze : ℚ)) = node_to_index es ((Zf : ℚ)))
    (hxe0 : 0 ≤ node_to_index es ((Xe : ℚ)))
    (hxef : node_to_index es ((Xe : ℚ)) ≤ node_to_index es ((Xf : ℚ)))
    (hye0 : 0 ≤ node_to_index es ((Ye : ℚ)))
    (hyef : node_to_index es ((Ye : ℚ)) ≤ node_to_index es ((Yf : ℚ)))
    (hzf0 : 0 ≤ node_to_index es ((Zf : ℚ))) :
    (ns.length : ℤ) = (node_to_index es ((Xf : ℚ)) + 1) *
        ((node_to_index es ((Yf : ℚ)) + 1) *
          (node_to_index es ((Zf : ℚ)) + 1)) ∧
    ((generate_elements (add_constraints ns ((Xf : ℚ), (Yf : ℚ), (Zf : ℚ))
        ((0 : ℚ), (0 : ℚ), (0 : ℚ)) ((0 : ℚ), (0 : ℚ), (0 : ℚ)) []) es
        ((Xf : ℚ), (Yf : ℚ), (Zf : ℚ)) ((Xe : ℚ), (Ye : ℚ), (Ze : ℚ))
        ((0 : ℚ), (0 : ℚ), (0 : ℚ))
        ((0 : ℚ), (0 : ℚ), (0 : ℚ))).length : ℤ) =
      node_to_index es ((Zf : ℚ)) *
        (node_to_index es ((Yf : ℚ)) * node_to_index es ((Xf : ℚ))) := by
  simp only [generate_nodes, eff_xo_zero, eff_yc_zero] at hgen
  split at hgen
  · injection hgen with hgen
    subst hgen
    rw [hze]
    constructor
    · rw [List.enumFrom_length, List.length_map]
      exact gridNodes_length _ _ _ _ _ hxe0 hxef hye0 hyef hzf0
    · rw [length_generate_elements]
      simp only [truncQ_intCast, allclose0_zero, Bool.and_self,
        eq_self_iff_true, if_true]
      rw [hze]
      apply element_bodies_box_length _ _ _ _ _ _ hxe0 hxef hye0 hyef hzf0
      intro i j k hi0 hi1 hj0 hj1 hk0 hk1
      exact index_map_covers es hes _ _ _ _ _ (i, j, k)
        (mem_gridNodes_box ⟨⟨hi0, hi1⟩, ⟨hj0, hj1⟩, ⟨hk0, hk1⟩⟩)
  · exact absurd hgen (by simp)

/-- Witness for the amended claim C2 at the concrete spec scenario:
element size 1, outer (2,2,1), explosive (1,1,1), no cutout: 18 nodes and
4 elements. -/
theorem c2_counts_amended_witness :
    (sc_ns.length : ℤ) = (node_to_index 1 ((2 : ℤ) : ℚ) + 1) *
        ((node_to_index 1 ((2 : ℤ) : ℚ) + 1) *
          (node_to_index 1 ((1 : ℤ) : ℚ) + 1)) ∧
    ((generate_elements (add_constraints sc_ns (((2 : ℤ) : ℚ), ((2 : ℤ) : ℚ),
        ((1 : ℤ) : ℚ)) ((0 : ℚ), (0 : ℚ), (0 : ℚ))
        ((0 : ℚ), (0 : ℚ), (0 : ℚ)) []) 1
        (((2 : ℤ) : ℚ), ((2 : ℤ) : ℚ), ((1 : ℤ) : ℚ))
        (((1 : ℤ) : ℚ), ((1 : ℤ) : ℚ), ((1 : ℤ) : ℚ))
        ((0 : ℚ), (0 : ℚ), (0 : ℚ))
        ((0 : ℚ), (0 : ℚ), (0 : ℚ))).length : ℤ) =
      node_to_index 1 ((1 : ℤ) : ℚ) *
        (node_to_index 1 ((2 : ℤ) : ℚ) * node_to_index 1 ((2 : ℤ) : ℚ)) :=
  c2_counts_amended 1 2 2 1 1 1 1 sc_ns (by norm_num)
    (by with_unfolding_all decide) (by with_unfolding_all decide)
    (by with_unfolding_all decide) (by with_unfolding_all decide)
    (by with_unfolding_all decide) (by with_unfolding_all decide)
    (by with_unfolding_all decide)

/-! ## Decimal digit-string lemmas -/

theorem isDigit_ofNat_digit {d : ℕ} (hd : d < 10) :
    (Char.ofNat (48 + d)).isDigit = true := by
  interval_cases d <;> decide

theorem toNat_ofNat_digit {d : ℕ} (hd : d < 10) :
    (Char.ofNat (48 + d)).toNat = 48 + d := by
  interval_cases d <;> decide

theorem natToCharsAux_zero (fuel : ℕ) : natToCharsAux fuel 0 = [] := by
  cases fuel <;> rfl

theorem natToCharsAux_digits :
    ∀ fuel n : ℕ, ∀ c ∈ natToCharsAux fuel n, c.isDigit = true := by
  intro fuel
  induction fuel with
  | zero => intro n c hc; cases hc
  | succ fuel ih =>
    intro n c hc
    unfold natToCharsAux at hc
    by_cases hn : n = 0
    · rw [if_pos hn] at hc
      cases hc
    · rw [if_neg hn] at hc
      rcases List.mem_append.mp hc with hc | hc
      · exact ih _ c hc
      · rcases List.mem_singleton.mp hc with rfl
        exact isDigit_ofNat_digit (Nat.mod_lt _ (by norm_num))

theorem natToChars_digits (n : ℕ) : ∀ c ∈ natToChars n, c.isDigit = true := by
  intro c hc
  unfold natToChars at hc
  by_cases hn : n = 0
  · rw [if_pos hn] at hc
    rcases List.mem_singleton.mp hc with rfl
    decide
  · rw [if_neg hn] at hc
    exact natToCharsAux_digits n n c hc

theorem natToChars_ne_nil (n : ℕ) : natToChars n ≠ [] := by
  unfold natToChars
  by_cases hn : n = 0
  · rw [if_pos hn]
    simp
  · rw [if_neg hn]
    rcases n with _ | m
    · exact absurd rfl hn
    · simp only [natToCharsAux]
      rw [if_neg hn]
      simp

theorem parseAcc_append (a : ℕ) (u v : List Char) :
    (u ++ v).foldl (fun a c => 10 * a + (c.toNat - 48)) a =
      v.foldl (fun a c => 10 * a + (c.toNat - 48))
        (u.foldl (fun a c => 10 * a + (c.toNat - 48)) a) := by
  rw [List.foldl_append]

theorem parseAcc_split (a : ℕ) (v : List Char) :
    v.foldl (fun a c => 10 * a + (c.toNat - 48)) a =
      a * 10 ^ v.length + parseNat v := by
  induction v generalizing a with
  | nil => simp [parseNat]
  | cons c t ih =>
    have hp : parseNat (c :: t) = (c.toNat - 48) * 10 ^ t.length + parseNat t := by
      have h0 : parseNat (c :: t) =
          t.foldl (fun a c => 10 * a + (c.toNat - 48)) (10 * 0 + (c.toNat - 48)) := rfl
      rw [h0, ih]
      ring
    rw [List.foldl_cons, ih (10 * a + (c.toNat - 48)), hp, List.length_cons]
    ring

theorem parseNat_append (u v : List Char) :
    parseNat (u ++ v) = parseNat u * 10 ^ v.length + parseNat v := by
  unfold parseNat
  rw [parseAcc_append, parseAcc_split]
  rfl

theorem parseNat_natToCharsAux :
    ∀ fuel n : ℕ, n ≤ fuel → parseNat (natToCharsAux fuel n) = n := by
  intro fuel
  induction fuel with
  | zero =>
    intro n hn
    interval_cases n
    rfl
  | succ fuel ih =>
    intro n hn
    unfold natToCharsAux
    by_cases h0 : n = 0
    · rw [if_pos h0, h0]
      rfl
    · rw [if_neg h0]
      rw [parseNat_append]
      have hd : n % 10 < 10 := Nat.mod_lt _ (by norm_num)
      have h1 : parseNat [Char.ofNat (48 + n % 10)] = n % 10 := by
        unfold parseNat
        rw [List.foldl_cons, List.foldl_nil, toNat_ofNat_digit hd]
        omega
      have h2 : n / 10 ≤ fuel := by omega
      rw [ih _ h2, h1, List.length_singleton, pow_one]
      omega

theorem parseNat_natToChars (n : ℕ) : parseNat (natToChars n) = n := by
  unfold natToChars
  by_cases h0 : n = 0
  · rw [if_pos h0, h0]
    rfl
  · rw [if_neg h0]
    exact parseNat_natToCharsAux n n le_rfl

theorem parseNat_cons_zero (l : List Char) :
    parseNat ('0' :: l) = parseNat l := by
  have h : parseNat ('0' :: l) =
      l.foldl (fun a c => 10 * a + (c.toNat - 48)) (10 * 0 + ('0'.toNat - 48)) := rfl
  have h0 : 10 * 0 + ('0'.toNat - 48) = 0 := by decide
  rw [h, h0]
  rfl

theorem natToCharsAux_length_spec :
    ∀ fuel n : ℕ, 1 ≤ n → n ≤ fuel →
      ∃ L, (natToCharsAux fuel n).length = L + 1 ∧
        10 ^ L ≤ n ∧ n < 10 ^ (L + 1) := by
  intro fuel
  induction fuel with
  | zero => intro n h1 h2; omega
  | succ fuel ih =>
    intro n h1 h2
    unfold natToCharsAux
    rw [if_neg (by omega)]
    by_cases hsmall : n < 10
    · have hdiv : n / 10 = 0 := by omega
      rw [hdiv, natToCharsAux_zero]
      exact ⟨0, by simp, by simpa using h1, by simpa using hsmall⟩
    · have hd1 : 1 ≤ n / 10 := by omega
      have hd2 : n / 10 ≤ fuel := by omega
      obtain ⟨L, hlen, hlo, hhi⟩ := ih (n / 10) hd1 hd2
      refine ⟨L + 1, ?_, ?_, ?_⟩
      · rw [List.length_append, hlen, List.length_singleton]
      · calc 10 ^ (L + 1) = 10 * 10 ^ L := by ring
        _ ≤ 10 * (n / 10) := by
            exact Nat.mul_le_mul_left 10 hlo
        _ ≤ n := by omega
      · have step : n / 10 + 1 ≤ 10 ^ (L + 1) := hhi
        calc n < 10 * (n / 10 + 1) := by omega
        _ ≤ 10 * 10 ^ (L + 1) := Nat.mul_le_mul_left 10 step
        _ = 10 ^ (L + 1 + 1) := by ring

theorem natToChars_length_spec (n : ℕ) (h1 : 1 ≤ n) :
    ∃ L, (natToChars n).length = L + 1 ∧ 10 ^ L ≤ n ∧ n < 10 ^ (L + 1) := by
  unfold natToChars
  rw [if_neg (by omega)]
  exact natToCharsAux_length_spec n n h1 le_rfl

theorem natToChars_length_le {n k : ℕ} (h : n < 10 ^ (k + 1)) :
    (natToChars n).length ≤ k + 1 := by
  by_cases h0 : n = 0
  · subst h0
    simp [natToChars]
  · obtain ⟨L, hlen, hlo, _⟩ := natToChars_length_spec n (by omega)
    rw [hlen]
    by_contra hk
    have hLk : k + 1 ≤ L := by omega
    have : (10 : ℕ) ^ (k + 1) ≤ 10 ^ L := Nat.pow_le_pow_right (by norm_num) hLk
    omega

theorem natToChars_length_eq_ten {n : ℕ} (h1 : 10 ^ 9 ≤ n)
    (h2 : n < 10 ^ 10) : (natToChars n).length = 10 := by
  obtain ⟨L, hlen, hlo, hhi⟩ := natToChars_length_spec n (by omega)
  rw [hlen]
  have hL9 : L ≤ 9 := by
    by_contra hk
    have : (10 : ℕ) ^ 10 ≤ 10 ^ L := Nat.pow_le_pow_right (by norm_num) (by omega)
    omega
  have hL9' : 9 ≤ L := by
    by_contra hk
    have : (10 : ℕ) ^ (L + 1) ≤ 10 ^ 9 := Nat.pow_le_pow_right (by norm_num) (by omega)
    omega
  omega

/-! ## Scientific-notation encoder lemmas -/

theorem qpow10_pos (e : ℤ) : 0 < qpow10 e := by
  unfold qpow10
  positivity

theorem qpow10_sub_nat (u v : ℕ) :
    qpow10 ((u : ℤ) - (v : ℤ)) = (10 : ℚ) ^ u / (10 : ℚ) ^ v := by
  unfold qpow10
  rw [zpow_sub₀ (by norm_num : (10 : ℚ) ≠ 0)]
  norm_num [zpow_natCast]

theorem dlen_spec {n : ℕ} (h1 : 1 ≤ n) :
    ∃ L, dlen n = L + 1 ∧ 10 ^ L ≤ n ∧ n < 10 ^ (L + 1) := by
  obtain ⟨L, hlen, hlo, hhi⟩ := natToCharsAux_length_spec n n h1 le_rfl
  exact ⟨L, hlen, hlo, hhi⟩

theorem decExp_spec {x : ℚ} (hx : x ≠ 0) :
    qpow10 (decExp x) ≤ |x| ∧ |x| < qpow10 (decExp x + 1) := by
  have hnum : x.num ≠ 0 := Rat.num_ne_zero.mpr hx
  have hp1 : 1 ≤ x.num.natAbs := by omega
  have hq1 : 1 ≤ x.den := x.pos
  obtain ⟨Lp, hlp, hplo, hphi⟩ := dlen_spec hp1
  obtain ⟨Lq, hlq, hqlo, hqhi⟩ := dlen_spec hq1
  have hqQ : (0 : ℚ) < (x.den : ℚ) := by exact_mod_cast x.pos
  have habs : |x| = (x.num.natAbs : ℚ) / (x.den : ℚ) := by
    rw [Int.cast_natAbs, Int.cast_abs, ← abs_of_pos hqQ, ← abs_div,
      Rat.num_div_den x]
  have hploQ : ((10 : ℚ)) ^ Lp ≤ (x.num.natAbs : ℚ) := by exact_mod_cast hplo
  have hphiQ : ((x.num.natAbs : ℚ)) < (10 : ℚ) ^ (Lp + 1) := by exact_mod_cast hphi
  have hqloQ : ((10 : ℚ)) ^ Lq ≤ (x.den : ℚ) := by exact_mod_cast hqlo
  have hqhiQ : ((x.den : ℚ)) < (10 : ℚ) ^ (Lq + 1) := by exact_mod_cast hqhi
  have hupper : |x| < (10 : ℚ) ^ (Lp + 1) / (10 : ℚ) ^ Lq := by
    rw [habs]
    gcongr
  have hqhiQ' : ((x.den : ℚ)) ≤ (10 : ℚ) ^ (Lq + 1) := le_of_lt hqhiQ
  have hlower : (10 : ℚ) ^ Lp / (10 : ℚ) ^ (Lq + 1) ≤ |x| := by
    rw [habs]
    gcongr
  have hc : (dlen x.num.natAbs : ℤ) - (dlen x.den : ℤ) =
      ((Lp + 1 : ℕ) : ℤ) - ((Lq + 1 : ℕ) : ℤ) := by
    rw [hlp, hlq]
  have hcp : (dlen x.num.natAbs : ℤ) - (dlen x.den : ℤ) + 1 =
      ((Lp + 1 : ℕ) : ℤ) - ((Lq : ℕ) : ℤ) := by
    rw [hlp, hlq]
    push_cast
    ring
  have hcm : (dlen x.num.natAbs : ℤ) - (dlen x.den : ℤ) - 1 =
      ((Lp : ℕ) : ℤ) - ((Lq + 1 : ℕ) : ℤ) := by
    rw [hlp, hlq]
    push_cast
    ring
  have hdef : decExp x =
      if qpow10 ((dlen x.num.natAbs : ℤ) - (dlen x.den : ℤ)) ≤ |x| then
        (dlen x.num.natAbs : ℤ) - (dlen x.den : ℤ)
      else (dlen x.num.natAbs : ℤ) - (dlen x.den : ℤ) - 1 := rfl
  rw [hdef]
  split_ifs with h
  · refine ⟨h, ?_⟩
    rw [hcp, qpow10_sub_nat]
    exact hupper
  · refine ⟨?_, ?_⟩
    · rw [hcm, qpow10_sub_nat]
      exact hlower
    · rw [sub_add_cancel]
      exact lt_of_not_le h

theorem rintQ_abs_sub_le (q : ℚ) : |((rintQ q : ℤ) : ℚ) - q| ≤ 1 / 2 := by
  have hf := Int.floor_le q
  have hf2 := Int.lt_floor_add_one q
  have hdef : rintQ q =
      if q - ((qfloor q : ℤ) : ℚ) < 1 / 2 then qfloor q
      else if 1 / 2 < q - ((qfloor q : ℤ) : ℚ) then qfloor q + 1
      else if qfloor q % 2 = 0 then qfloor q else qfloor q + 1 := rfl
  rw [hdef, qfloor_eq]
  split_ifs <;> (rw [abs_le]; constructor <;> push_cast <;> linarith)

theorem sciDigits_bounds {x : ℚ} (hx : x ≠ 0) :
    10 ^ 9 ≤ (sciDigits x).1 ∧ (sciDigits x).1 < 10 ^ 10 := by
  obtain ⟨hlo, hhi⟩ := decExp_spec hx
  have hpos : (0 : ℚ) < qpow10 (9 - decExp x) := qpow10_pos _
  have hq9 : qpow10 (decExp x) * qpow10 (9 - decExp x) = (10 : ℚ) ^ (9 : ℕ) := by
    unfold qpow10
    rw [← zpow_add₀ (by norm_num : (10 : ℚ) ≠ 0)]
    rw [show decExp x + (9 - decExp x) = ((9 : ℕ) : ℤ) from by push_cast; ring]
    exact zpow_natCast 10 9
  have hq10 : qpow10 (decExp x + 1) * qpow10 (9 - decExp x) =
      (10 : ℚ) ^ (10 : ℕ) := by
    unfold qpow10
    rw [← zpow_add₀ (by norm_num : (10 : ℚ) ≠ 0)]
    rw [show decExp x + 1 + (9 - decExp x) = ((10 : ℕ) : ℤ) from by push_cast; ring]
    exact zpow_natCast 10 10
  have hm_lo : (10 : ℚ) ^ (9 : ℕ) ≤ |x| * qpow10 (9 - decExp x) := by
    rw [← hq9]
    exact mul_le_mul_of_nonneg_right hlo (le_of_lt hpos)
  have hm_hi : |x| * qpow10 (9 - decExp x) < (10 : ℚ) ^ (10 : ℕ) := by
    rw [← hq10]
    exact mul_lt_mul_of_pos_right hhi hpos
  have hr := rintQ_abs_sub_le (|x| * qpow10 (9 - decExp x))
  rw [abs_le] at hr
  have hn_lo : (10 ^ 9 : ℤ) ≤ rintQ (|x| * qpow10 (9 - decExp x)) := by
    have h1 : ((10 ^ 9 : ℤ) : ℚ) - 1 <
        ((rintQ (|x| * qpow10 (9 - decExp x)) : ℤ) : ℚ) := by
      push_cast
      linarith
    have h2 : (10 ^ 9 : ℤ) - 1 < rintQ (|x| * qpow10 (9 - decExp x)) := by
      exact_mod_cast h1
    omega
  have hn_hi : rintQ (|x| * qpow10 (9 - decExp x)) ≤ (10 ^ 10 : ℤ) := by
    have h1 : ((rintQ (|x| * qpow10 (9 - decExp x)) : ℤ) : ℚ) <
        ((10 ^ 10 : ℤ) : ℚ) + 1 := by
      push_cast
      linarith
    have h2 : rintQ (|x| * qpow10 (9 - decExp x)) < (10 ^ 10 : ℤ) + 1 := by
      exact_mod_cast h1
    omega
  have hdef : sciDigits x =
      if (rintQ (|x| * qpow10 (9 - decExp x))).toNat = 10 ^ 10 then
        (10 ^ 9, decExp x + 1)
      else ((rintQ (|x| * qpow10 (9 - decExp x))).toNat, decExp x) := rfl
  rw [hdef]
  split_ifs with h
  · constructor
    · show (10 : ℕ) ^ 9 ≤ 10 ^ 9
      exact le_rfl
    · show (10 : ℕ) ^ 9 < 10 ^ 10
      norm_num
  · constructor
    · show 10 ^ 9 ≤ (rintQ (|x| * qpow10 (9 - decExp x))).toNat
      omega
    · show (rintQ (|x| * qpow10 (9 - decExp x))).toNat < 10 ^ 10
      omega

/-! ## Float-literal parser inverts the encoder -/

theorem leadsWith_single (c d : Char) (t : List Char) :
    leadsWith [c] (d :: t) = decide (c = d) := by
  simp [leadsWith]

theorem takeWhile_append_eq {p : Char → Bool} :
    ∀ (u v : List Char), (∀ c ∈ u, p c = true) →
      (∀ c cs, v = c :: cs → p c = false) →
      (u ++ v).takeWhile p = u ∧ (u ++ v).dropWhile p = v := by
  intro u
  induction u with
  | nil =>
    intro v _ hv
    cases v with
    | nil => exact ⟨rfl, rfl⟩
    | cons c cs =>
      constructor
      · simp [List.takeWhile_cons, hv c cs rfl]
      · simp [List.dropWhile_cons, hv c cs rfl]
  | cons a u ih =>
    intro v hu hv
    have ha : p a = true := hu a (List.mem_cons_self a u)
    obtain ⟨h1, h2⟩ := ih v (fun c hc => hu c (List.mem_cons_of_mem a hc)) hv
    constructor
    · simp [List.takeWhile_cons, ha, h1]
    · simp [List.dropWhile_cons, ha, h2]

theorem takeWhile_all {p : Char → Bool} (u : List Char)
    (hu : ∀ c ∈ u, p c = true) :
    u.takeWhile p = u ∧ u.dropWhile p = [] := by
  have h := takeWhile_append_eq u [] hu (fun c cs h => by cases h)
  simpa using h

theorem pyFloat_core (d0 : Char) (rest : List Char) (sgnE : Char) (esgn : ℤ)
    (eds : List Char)
    (hsgnE : sgnE = '+' ∧ esgn = 1 ∨ sgnE = '-' ∧ esgn = -1)
    (hd0 : d0.isDigit = true)
    (hrest : ∀ c ∈ rest, c.isDigit = true)
    (heds : ∀ c ∈ eds, c.isDigit = true)
    (heds0 : eds ≠ []) :
    pyFloat (d0 :: '.' :: (rest ++ 'E' :: sgnE :: eds)) =
      some (((parseNat [d0] : ℚ) + (parseNat rest : ℚ) / 10 ^ rest.length) *
        qpow10 (esgn * (parseNat eds : ℤ))) := by
  have hdne : ∀ c : Char, c.isDigit = true → ∀ d : Char, d.isDigit = false →
      c ≠ d := by
    intro c hc d hd h
    rw [h, hd] at hc
    cases hc
  have hd0p : d0 ≠ '+' := hdne d0 hd0 '+' (by decide)
  have hd0m : d0 ≠ '-' := hdne d0 hd0 '-' (by decide)
  have htd : (rest ++ 'E' :: sgnE :: eds).takeWhile Char.isDigit = rest ∧
      (rest ++ 'E' :: sgnE :: eds).dropWhile Char.isDigit =
        'E' :: sgnE :: eds := by
    refine takeWhile_append_eq rest ('E' :: sgnE :: eds) hrest ?_
    intro c cs h
    cases h
    decide
  have hte : eds.takeWhile Char.isDigit = eds ∧ eds.dropWhile Char.isDigit = [] :=
    takeWhile_all eds heds
  have e1 : decide ('+' = d0) = false := decide_eq_false (Ne.symm hd0p)
  have e2 : decide ('-' = d0) = false := decide_eq_false (Ne.symm hd0m)
  have hdot : ('.').isDigit = false := by decide
  have he : eds.isEmpty = false := by
    cases eds with
    | nil => exact absurd rfl heds0
    | cons a t => rfl
  rcases hsgnE with ⟨rfl, rfl⟩ | ⟨rfl, rfl⟩ <;>
    simp [pyFloat, leadsWith_single, List.tail_cons, List.takeWhile_cons,
      List.dropWhile_cons, hd0, hdot, htd.1, htd.2, hte.1, hte.2, e1, e2, he]

theorem pyFloat_core_neg (d0 : Char) (rest : List Char) (sgnE : Char)
    (esgn : ℤ) (eds : List Char)
    (hsgnE : sgnE = '+' ∧ esgn = 1 ∨ sgnE = '-' ∧ esgn = -1)
    (hd0 : d0.isDigit = true)
    (hrest : ∀ c ∈ rest, c.isDigit = true)
    (heds : ∀ c ∈ eds, c.isDigit = true)
    (heds0 : eds ≠ []) :
    pyFloat ('-' :: d0 :: '.' :: (rest ++ 'E' :: sgnE :: eds)) =
      some (-(((parseNat [d0] : ℚ) + (parseNat rest : ℚ) / 10 ^ rest.length) *
        qpow10 (esgn * (parseNat eds : ℤ)))) := by
  have hdot : ('.').isDigit = false := by decide
  have htd : (rest ++ 'E' :: sgnE :: eds).takeWhile Char.isDigit = rest ∧
      (rest ++ 'E' :: sgnE :: eds).dropWhile Char.isDigit =
        'E' :: sgnE :: eds := by
    refine takeWhile_append_eq rest ('E' :: sgnE :: eds) hrest ?_
    intro c cs h
    cases h
    decide
  have hte : eds.takeWhile Char.isDigit = eds ∧ eds.dropWhile Char.isDigit = [] :=
    takeWhile_all eds heds
  have he : eds.isEmpty = false := by
    cases eds with
    | nil => exact absurd rfl heds0
    | cons a t => rfl
  rcases hsgnE with ⟨rfl, rfl⟩ | ⟨rfl, rfl⟩ <;>
    (simp [pyFloat, leadsWith_single, List.tail_cons, List.takeWhile_cons,
      List.dropWhile_cons, hd0, hdot, htd.1, htd.2, hte.1, hte.2, he]; ring)

theorem qpow10_sub_nine (e : ℤ) :
    qpow10 (e - 9) = qpow10 e / (10 : ℚ) ^ (9 : ℕ) := by
  unfold qpow10
  rw [zpow_sub₀ (by norm_num : (10 : ℚ) ≠ 0)]
  rw [show ((9 : ℤ)) = ((9 : ℕ) : ℤ) from rfl, zpow_natCast]

theorem pyFloat_sciChars (x : ℚ) : pyFloat (sciChars x) = some (enc9 x) := by
  by_cases hx : x = 0
  · subst hx
    with_unfolding_all decide
  · obtain ⟨hN1, hN2⟩ := sciDigits_bounds hx
    have hlen : (natToChars (sciDigits x).1).length = 10 :=
      natToChars_length_eq_ten hN1 hN2
    cases hds : natToChars (sciDigits x).1 with
    | nil =>
      rw [hds] at hlen
      simp at hlen
    | cons d0 rest =>
    rw [hds] at hlen
    have hd0 : d0.isDigit = true := by
      apply natToChars_digits (sciDigits x).1
      rw [hds]
      exact List.mem_cons_self _ _
    have hrest : ∀ c ∈ rest, c.isDigit = true := by
      intro c hc
      apply natToChars_digits (sciDigits x).1
      rw [hds]
      exact List.mem_cons_of_mem _ hc
    have hrlen : rest.length = 9 := by simpa using hlen
    have hedigits : ∀ c ∈ (if (natToChars (sciDigits x).2.natAbs).length < 2
        then '0' :: natToChars (sciDigits x).2.natAbs
        else natToChars (sciDigits x).2.natAbs), c.isDigit = true := by
      intro c hc
      split_ifs at hc with h
      · rcases List.mem_cons.mp hc with rfl | hc
        · decide
        · exact natToChars_digits _ c hc
      · exact natToChars_digits _ c hc
    have heds0 : (if (natToChars (sciDigits x).2.natAbs).length < 2
        then '0' :: natToChars (sciDigits x).2.natAbs
        else natToChars (sciDigits x).2.natAbs) ≠ [] := by
      split_ifs with h
      · simp
      · exact natToChars_ne_nil _
    have hpe : parseNat (if (natToChars (sciDigits x).2.natAbs).length < 2
        then '0' :: natToChars (sciDigits x).2.natAbs
        else natToChars (sciDigits x).2.natAbs) = (sciDigits x).2.natAbs := by
      split_ifs with h
      · rw [parseNat_cons_zero, parseNat_natToChars]
      · rw [parseNat_natToChars]
    have hsum : parseNat [d0] * 10 ^ 9 + parseNat rest = (sciDigits x).1 := by
      have h1 := parseNat_append [d0] rest
      rw [hrlen] at h1
      have h2 : [d0] ++ rest = natToChars (sciDigits x).1 := by
        rw [hds]
        rfl
      rw [h2, parseNat_natToChars] at h1
      omega
    have hsumQ : (parseNat [d0] : ℚ) * 10 ^ (9 : ℕ) + (parseNat rest : ℚ) =
        ((sciDigits x).1 : ℚ) := by exact_mod_cast hsum
    have hA : ((parseNat [d0] : ℚ)) + (parseNat rest : ℚ) / 10 ^ rest.length =
        ((sciDigits x).1 : ℚ) / 10 ^ (9 : ℕ) := by
      rw [hrlen, eq_div_iff (by positivity : ((10 : ℚ) ^ (9 : ℕ)) ≠ 0)]
      field_simp
      linarith [hsumQ]
    by_cases hen : (sciDigits x).2 < 0
    · have hexp : (-1 : ℤ) * (parseNat
          (if (natToChars (sciDigits x).2.natAbs).length < 2
           then '0' :: natToChars (sciDigits x).2.natAbs
           else natToChars (sciDigits x).2.natAbs) : ℤ) = (sciDigits x).2 := by
        rw [hpe]
        omega
      by_cases hneg : x < 0
      · have hsc : sciChars x = '-' :: d0 :: '.' :: (rest ++ 'E' :: '-' ::
            (if (natToChars (sciDigits x).2.natAbs).length < 2
             then '0' :: natToChars (sciDigits x).2.natAbs
             else natToChars (sciDigits x).2.natAbs)) := by
          simp only [sciChars, sciExpChars]
          rw [if_neg hx, hds]
          simp [hneg, hen]
        rw [hsc, pyFloat_core_neg d0 rest '-' (-1) _ (Or.inr ⟨rfl, rfl⟩) hd0
          hrest hedigits heds0]
        have henc : enc9 x = -1 * ((sciDigits x).1 : ℚ) *
            qpow10 ((sciDigits x).2 - 9) := by
          unfold enc9
          rw [if_neg hx, if_pos hneg]
        rw [henc]
        congr 1
        rw [hA, hexp, qpow10_sub_nine]
        ring
      · have hsc : sciChars x = d0 :: '.' :: (rest ++ 'E' :: '-' ::
            (if (natToChars (sciDigits x).2.natAbs).length < 2
             then '0' :: natToChars (sciDigits x).2.natAbs
             else natToChars (sciDigits x).2.natAbs)) := by
          simp only [sciChars, sciExpChars]
          rw [if_neg hx, hds]
          simp [hneg, hen]
        rw [hsc, pyFloat_core d0 rest '-' (-1) _ (Or.inr ⟨rfl, rfl⟩) hd0
          hrest hedigits heds0]
        have henc : enc9 x = 1 * ((sciDigits x).1 : ℚ) *
            qpow10 ((sciDigits x).2 - 9) := by
          unfold enc9
          rw [if_neg hx, if_neg hneg]
        rw [henc]
        congr 1
        rw [hA, hexp, qpow10_sub_nine]
        ring
    · have hexp : (1 : ℤ) * (parseNat
          (if (natToChars (sciDigits x).2.natAbs).length < 2
           then '0' :: natToChars (sciDigits x).2.natAbs
           else natToChars (sciDigits x).2.natAbs) : ℤ) = (sciDigits x).2 := by
        rw [hpe]
        omega
      by_cases hneg : x < 0
      · have hsc : sciChars x = '-' :: d0 :: '.' :: (rest ++ 'E' :: '+' ::
            (if (natToChars (sciDigits x).2.natAbs).length < 2
             then '0' :: natToChars (sciDigits x).2.natAbs
             else natToChars (sciDigits x).2.natAbs)) := by
          simp only [sciChars, sciExpChars]
          rw [if_neg hx, hds]
          simp [hneg, hen]
        rw [hsc, pyFloat_core_neg d0 rest '+' 1 _ (Or.inl ⟨rfl, rfl⟩) hd0
          hrest hedigits heds0]
        have henc : enc9 x = -1 * ((sciDigits x).1 : ℚ) *
            qpow10 ((sciDigits x).2 - 9) := by
          unfold enc9
          rw [if_neg hx, if_pos hneg]
        rw [henc]
        congr 1
        rw [hA, hexp, qpow10_sub_nine]
        ring
      · have hsc : sciChars x = d0 :: '.' :: (rest ++ 'E' :: '+' ::
            (if (natToChars (sciDigits x).2.natAbs).length < 2
             then '0' :: natToChars (sciDigits x).2.natAbs
             else natToChars (sciDigits x).2.natAbs)) := by
          simp only [sciChars, sciExpChars]
          rw [if_neg hx, hds]
          simp [hneg, hen]
        rw [hsc, pyFloat_core d0 rest '+' 1 _ (Or.inl ⟨rfl, rfl⟩) hd0
          hrest hedigits heds0]
        have henc : enc9 x = 1 * ((sciDigits x).1 : ℚ) *
            qpow10 ((sciDigits x).2 - 9) := by
          unfold enc9
          rw [if_neg hx, if_neg hneg]
        rw [henc]
        congr 1
        rw [hA, hexp, qpow10_sub_nine]
        ring

/-! ## Digit-run extraction (`re.findall`) lemmas -/

theorem digitRunsGo_pad : ∀ (k : ℕ) (s : List Char),
    digitRunsGo (List.replicate k ' ' ++ s) [] = digitRunsGo s [] := by
  intro k
  have hsp : (' ').isDigit = false := by decide
  induction k with
  | zero => intro s; rfl
  | succ k ih =>
    intro s
    rw [List.replicate_succ]
    simp only [List.cons_append, digitRunsGo, hsp]
    simpa using ih s

theorem digitRunsGo_digits : ∀ (ds : List Char),
    (∀ c ∈ ds, c.isDigit = true) → ∀ (s acc : List Char),
    digitRunsGo (ds ++ s) acc = digitRunsGo s (ds.reverse ++ acc) := by
  intro ds
  induction ds with
  | nil => intro _ s acc; simp
  | cons c t ih =>
    intro hds s acc
    have hc : c.isDigit = true := hds c (List.mem_cons_self c t)
    have ht := fun d hd => hds d (List.mem_cons_of_mem c hd)
    have h1 : digitRunsGo (c :: (t ++ s)) acc = digitRunsGo (t ++ s) (c :: acc) := by
      simp [digitRunsGo, hc]
    simp only [List.cons_append, h1, ih ht s (c :: acc)]
    simp

theorem digitRunsGo_flush (s acc : List Char) (hacc : acc ≠ [])
    (hs : s = [] ∨ ∃ c t, s = c :: t ∧ c.isDigit = false) :
    digitRunsGo s acc = acc.reverse :: digitRunsGo s [] := by
  have hae : acc.isEmpty = false := by
    cases acc with
    | nil => exact absurd rfl hacc
    | cons a t => rfl
  rcases hs with rfl | ⟨c, t, rfl, hc⟩
  · simp [digitRunsGo, hae]
  · simp [digitRunsGo, hae, hc]

theorem elemLine_head_space {w : ℕ} (r' : List ℕ) (hw : w < 10 ^ 7) :
    ∃ t, elemLine (w :: r') = ' ' :: t := by
  have hlen : (natToChars w).length ≤ 6 + 1 :=
    @natToChars_length_le w 6 (by norm_num at hw ⊢; exact hw)
  obtain ⟨m, hm⟩ : ∃ m, 8 - (natToChars w).length = m + 1 :=
    ⟨8 - (natToChars w).length - 1, by omega⟩
  refine ⟨List.replicate m ' ' ++ natToChars w ++ elemLine r', ?_⟩
  simp only [elemLine, List.map_cons, List.flatten_cons, rjust, hm,
    List.replicate_succ]
  simp [elemLine]

theorem digitRuns_elemLine : ∀ (row : List ℕ), (∀ v ∈ row, v < 10 ^ 7) →
    digitRuns (elemLine row) = row.map natToChars := by
  intro row
  induction row with
  | nil => intro _; rfl
  | cons v r ih =>
    intro hb
    have hv : v < 10 ^ 7 := hb v (List.mem_cons_self v r)
    have hd := natToChars_digits v
    have hne := natToChars_ne_nil v
    have hstep : elemLine (v :: r) =
        List.replicate (8 - (natToChars v).length) ' ' ++
          (natToChars v ++ elemLine r) := by
      simp [elemLine, rjust]
    unfold digitRuns
    rw [hstep, digitRunsGo_pad, digitRunsGo_digits (natToChars v) hd]
    have hrev : (natToChars v).reverse ++ [] ≠ [] := by
      simp [hne]
    rw [digitRunsGo_flush (elemLine r) _ hrev ?_]
    · rw [List.reverse_append]
      simp only [List.reverse_nil, List.nil_append, List.reverse_reverse]
      rw [show digitRunsGo (elemLine r) [] = digitRuns (elemLine r) from rfl]
      rw [ih (fun w hw => hb w (List.mem_cons_of_mem v hw))]
      rfl
    · cases r with
      | nil => exact Or.inl rfl
      | cons w r' =>
        obtain ⟨t, ht⟩ := elemLine_head_space r'
          (hb w (List.mem_cons_of_mem v (List.mem_cons_self w r')))
        exact Or.inr ⟨' ', t, ht, by decide⟩

theorem map_comp_parseNat (l : List ℕ) : l.map (parseNat ∘ natToChars) = l := by
  induction l with
  | nil => rfl
  | cons a t ih =>
    simp only [List.map_cons, Function.comp_apply, parseNat_natToChars, ih]

theorem map_parseNat_natToChars (l : List ℕ) :
    (l.map natToChars).map parseNat = l := by
  rw [List.map_map]
  exact map_comp_parseNat l

theorem parse_elements_elemLines : ∀ (rows : List (List ℕ)),
    (∀ rr ∈ rows, rr.length = 10 ∧ ∀ v ∈ rr, v < 10 ^ 7) →
    parse_elements (rows.map elemLine) = rows := by
  intro rows
  induction rows with
  | nil => intro _; rfl
  | cons rr rs ih =>
    intro hb
    obtain ⟨hlen, hv⟩ := hb rr (List.mem_cons_self rr rs)
    have hruns := digitRuns_elemLine rr hv
    unfold parse_elements
    rw [List.map_cons]
    show List.filterMap (fun l => if (digitRuns l).length = 10 then
        some ((digitRuns l).map parseNat) else none)
      (elemLine rr :: rs.map elemLine) = rr :: rs
    have hstep : List.filterMap (fun l => if (digitRuns l).length = 10 then
        some ((digitRuns l).map parseNat) else none)
        (elemLine rr :: rs.map elemLine) =
      rr :: List.filterMap (fun l => if (digitRuns l).length = 10 then
        some ((digitRuns l).map parseNat) else none) (rs.map elemLine) := by
      simp [List.filterMap_cons, hruns, hlen, map_parseNat_natToChars,
        map_comp_parseNat]
    rw [hstep]
    rw [show List.filterMap (fun l => if (digitRuns l).length = 10 then
        some ((digitRuns l).map parseNat) else none) (rs.map elemLine) =
      parse_elements (rs.map elemLine) from rfl]
    rw [ih (fun r h => hb r (List.mem_cons_of_mem rr h))]

/-! ## Line splitting, stripping and section extraction lemmas -/

theorem pyIsSpace_of_isDigit {c : Char} (h : c.isDigit = true) :
    pyIsSpace c = false := by
  unfold pyIsSpace
  by_contra hc
  rw [Bool.not_eq_false] at hc
  simp only [Bool.or_eq_true, decide_eq_true_eq] at hc
  rcases hc with ((((rfl | rfl) | rfl) | rfl) | rfl) | rfl <;>
    exact absurd h (by decide)

theorem isFloatClass_of_isDigit {c : Char} (h : c.isDigit = true) :
    isFloatClass c = true := by
  unfold isFloatClass
  rw [h]
  rfl

theorem floatClass_not_space {c : Char} (h : isFloatClass c = true) :
    pyIsSpace c = false := by
  unfold isFloatClass at h
  simp only [Bool.or_eq_true, decide_eq_true_eq] at h
  rcases h with ((((hd | rfl) | rfl) | rfl) | rfl) | rfl
  · exact pyIsSpace_of_isDigit hd
  all_goals decide

theorem ne_newline_of_not_space {c : Char} (h : pyIsSpace c = false) :
    c ≠ '\n' := by
  intro hh
  rw [hh] at h
  exact absurd h (by decide)

theorem digit_ne_star {c : Char} (h : c.isDigit = true) : c ≠ '*' := by
  intro hh
  rw [hh] at h
  exact absurd h (by decide)

theorem sciChars_class (x : ℚ) : ∀ c ∈ sciChars x, isFloatClass c = true := by
  intro c hc
  by_cases hx : x = 0
  · subst hx
    rw [show sciChars 0 = sciZeroChars from rfl] at hc
    fin_cases hc <;> decide
  · have hsc : sciChars x = (if x < 0 then ['-'] else []) ++
        ([(natToChars (sciDigits x).1).headD '0'] ++ (['.'] ++
        ((natToChars (sciDigits x).1).tail ++ (['E'] ++
        sciExpChars (sciDigits x).2)))) := by
      simp [sciChars, hx, List.append_assoc]
    rw [hsc] at hc
    rcases List.mem_append.mp hc with h1 | h1
    · split_ifs at h1
      · rcases List.mem_singleton.mp h1 with rfl
        decide
      · cases h1
    rcases List.mem_append.mp h1 with h2 | h2
    · rcases List.mem_singleton.mp h2 with rfl
      cases hh : natToChars (sciDigits x).1 with
      | nil => decide
      | cons d0 rest =>
        simp only [List.headD_cons]
        apply isFloatClass_of_isDigit
        apply natToChars_digits (sciDigits x).1
        rw [hh]
        exact List.mem_cons_self _ _
    rcases List.mem_append.mp h2 with h3 | h3
    · rcases List.mem_singleton.mp h3 with rfl
      decide
    rcases List.mem_append.mp h3 with h4 | h4
    · exact isFloatClass_of_isDigit
        (natToChars_digits (sciDigits x).1 c (List.mem_of_mem_tail h4))
    rcases List.mem_append.mp h4 with h5 | h5
    · rcases List.mem_singleton.mp h5 with rfl
      decide
    · unfold sciExpChars at h5
      rcases List.mem_append.mp h5 with h6 | h6
      · split_ifs at h6 <;> rcases List.mem_singleton.mp h6 with rfl <;> decide
      · split_ifs at h6 with hlt
        · rcases List.mem_cons.mp h6 with rfl | h7
          · decide
          · exact isFloatClass_of_isDigit (natToChars_digits _ c h7)
        · exact isFloatClass_of_isDigit (natToChars_digits _ c h6)

theorem splitlinesGo_line : ∀ (l : List Char), (∀ c ∈ l, c ≠ '\n') →
    ∀ (s acc : List Char),
    splitlinesGo (l ++ '\n' :: s) acc =
      (acc.reverse ++ l) :: splitlinesGo s [] := by
  intro l
  induction l with
  | nil =>
    intro _ s acc
    simp [splitlinesGo]
  | cons c t ih =>
    intro hl s acc
    have hc : c ≠ '\n' := hl c (List.mem_cons_self c t)
    have ht := fun d hd => hl d (List.mem_cons_of_mem c hd)
    have h1 : splitlinesGo (c :: (t ++ '\n' :: s)) acc =
        splitlinesGo (t ++ '\n' :: s) (c :: acc) := by
      simp [splitlinesGo, hc]
    simp only [List.cons_append, h1, ih ht s (c :: acc)]
    simp

theorem pySplitlines_fileChars : ∀ (lines : List (List Char)),
    (∀ l ∈ lines, ∀ c ∈ l, c ≠ '\n') →
    pySplitlines (fileChars lines) = lines := by
  intro lines
  induction lines with
  | nil => intro _; rfl
  | cons l ls ih =>
    intro h
    have hl := h l (List.mem_cons_self l ls)
    have hstep : fileChars (l :: ls) = l ++ '\n' :: fileChars ls := by
      simp [fileChars]
    unfold pySplitlines
    rw [hstep, splitlinesGo_line l hl (fileChars ls) []]
    simp only [List.reverse_nil, List.nil_append]
    rw [show splitlinesGo (fileChars ls) [] = pySplitlines (fileChars ls)
      from rfl]
    rw [ih (fun l' h' => h l' (List.mem_cons_of_mem _ h'))]

theorem dropWhile_pad_stop {k : ℕ} {d : Char} {t : List Char}
    (hd : pyIsSpace d = false) :
    (List.replicate k ' ' ++ (d :: t)).dropWhile pyIsSpace = d :: t := by
  have h := @takeWhile_append_eq pyIsSpace (List.replicate k ' ') (d :: t)
    (fun c hc => by rw [List.eq_of_mem_replicate hc]; decide)
    (fun c cs hcc => by cases hcc; exact hd)
  exact h.2

theorem rstripL_eq_self {s : List Char}
    (h : ∃ w e, s = w ++ [e] ∧ pyIsSpace e = false) : rstripL s = s := by
  obtain ⟨w, e, rfl, he⟩ := h
  unfold rstripL
  rw [List.reverse_append]
  simp [List.dropWhile_cons, he]

theorem exists_concat_append (a t : List Char)
    (h : ∃ w e, t = w ++ [e] ∧ pyIsSpace e = false) :
    ∃ w e, a ++ t = w ++ [e] ∧ pyIsSpace e = false := by
  obtain ⟨w, e, rfl, he⟩ := h
  exact ⟨a ++ w, e, by rw [← List.append_assoc], he⟩

theorem exists_concat_cons (a : Char) (t : List Char)
    (h : ∃ w e, t = w ++ [e] ∧ pyIsSpace e = false) :
    ∃ w e, a :: t = w ++ [e] ∧ pyIsSpace e = false := by
  obtain ⟨w, e, rfl, he⟩ := h
  exact ⟨a :: w, e, rfl, he⟩

theorem natToChars_ends (n : ℕ) :
    ∃ w e, natToChars n = w ++ [e] ∧ pyIsSpace e = false := by
  rcases List.eq_nil_or_concat (natToChars n) with h | ⟨w, e, h⟩
  · exact absurd h (natToChars_ne_nil n)
  · rw [List.concat_eq_append] at h
    refine ⟨w, e, h, ?_⟩
    apply pyIsSpace_of_isDigit
    apply natToChars_digits n
    rw [h]
    simp

theorem nodeLine_decomp (r : NodeRow) :
    nodeLine r = List.replicate (8 - (natToChars r.nid).length) ' ' ++
      (natToChars r.nid ++ (' ' :: (sciChars r.x ++ (' ' :: (sciChars r.y ++
        (' ' :: (sciChars r.z ++
          (List.replicate (8 - (natToChars r.tc).length) ' ' ++
          (natToChars r.tc ++
            (List.replicate (8 - (natToChars r.rc).length) ' ' ++
            natToChars r.rc)))))))))) := by
  simp [nodeLine, rjust, List.append_assoc]

theorem nodeLine_tail_ends (r : NodeRow) :
    ∃ w e, natToChars r.nid ++ (' ' :: (sciChars r.x ++ (' ' ::
        (sciChars r.y ++ (' ' :: (sciChars r.z ++
          (List.replicate (8 - (natToChars r.tc).length) ' ' ++
          (natToChars r.tc ++
            (List.replicate (8 - (natToChars r.rc).length) ' ' ++
            natToChars r.rc))))))))) = w ++ [e] ∧ pyIsSpace e = false := by
  refine exists_concat_append _ _ (exists_concat_cons _ _
    (exists_concat_append _ _ (exists_concat_cons _ _
    (exists_concat_append _ _ (exists_concat_cons _ _
    (exists_concat_append _ _ (exists_concat_append _ _
    (exists_concat_append _ _ (exists_concat_append _ _
    (natToChars_ends r.rc))))))))))

theorem pyStrip_nodeLine_head (r : NodeRow) :
    ∃ d t, pyStrip (nodeLine r) = d :: t ∧ d.isDigit = true := by
  cases hds : natToChars r.nid with
  | nil => exact absurd hds (natToChars_ne_nil r.nid)
  | cons d ds' =>
  have hd : d.isDigit = true := by
    apply natToChars_digits r.nid
    rw [hds]
    exact List.mem_cons_self _ _
  have hdw : (nodeLine r).dropWhile pyIsSpace =
      natToChars r.nid ++ (' ' :: (sciChars r.x ++ (' ' :: (sciChars r.y ++
        (' ' :: (sciChars r.z ++
          (List.replicate (8 - (natToChars r.tc).length) ' ' ++
          (natToChars r.tc ++
            (List.replicate (8 - (natToChars r.rc).length) ' ' ++
            natToChars r.rc))))))))) := by
    rw [nodeLine_decomp r, hds]
    rw [List.cons_append]
    exact dropWhile_pad_stop (pyIsSpace_of_isDigit hd)
  unfold pyStrip
  rw [hdw, rstripL_eq_self (nodeLine_tail_ends r)]
  rw [hds, List.cons_append]
  exact ⟨d, _, rfl, hd⟩

theorem elemLine_ends : ∀ (row : List ℕ), row ≠ [] →
    ∃ w e, elemLine row = w ++ [e] ∧ pyIsSpace e = false := by
  intro row
  induction row with
  | nil => intro h; exact absurd rfl h
  | cons v r ih =>
    intro _
    cases r with
    | nil =>
      have h1 : elemLine [v] =
          List.replicate (8 - (natToChars v).length) ' ' ++ natToChars v := by
        simp [elemLine, rjust]
      rw [h1]
      exact exists_concat_append _ _ (natToChars_ends v)
    | cons w r' =>
      have h1 : elemLine (v :: w :: r') =
          rjust 8 (natToChars v) ++ elemLine (w :: r') := by
        simp [elemLine]
      rw [h1]
      exact exists_concat_append _ _ (ih (by simp))

theorem pyStrip_elemLine_head (v : ℕ) (r : List ℕ) :
    ∃ d t, pyStrip (elemLine (v :: r)) = d :: t ∧ d.isDigit = true := by
  cases hds : natToChars v with
  | nil => exact absurd hds (natToChars_ne_nil v)
  | cons d ds' =>
  have hd : d.isDigit = true := by
    apply natToChars_digits v
    rw [hds]
    exact List.mem_cons_self _ _
  have hdecomp : elemLine (v :: r) =
      List.replicate (8 - (natToChars v).length) ' ' ++
        (natToChars v ++ elemLine r) := by
    simp [elemLine, rjust, List.append_assoc]
  have hdw : (elemLine (v :: r)).dropWhile pyIsSpace =
      natToChars v ++ elemLine r := by
    rw [hdecomp, hds, List.cons_append]
    exact dropWhile_pad_stop (pyIsSpace_of_isDigit hd)
  have hends : ∃ w e, natToChars v ++ elemLine r = w ++ [e] ∧
      pyIsSpace e = false := by
    cases r with
    | nil =>
      rw [show elemLine ([] : List ℕ) = [] from rfl, List.append_nil]
      exact natToChars_ends v
    | cons w r' =>
      exact exists_concat_append _ _ (elemLine_ends (w :: r') (by simp))
  unfold pyStrip
  rw [hdw, rstripL_eq_self hends, hds, List.cons_append]
  exact ⟨d, _, rfl, hd⟩

theorem elemLine_no_newline (row : List ℕ) : ∀ c ∈ elemLine row, c ≠ '\n' := by
  intro c hc
  unfold elemLine at hc
  rw [List.mem_flatten] at hc
  obtain ⟨l, hl, hcl⟩ := hc
  rw [List.mem_map] at hl
  obtain ⟨v, hv, rfl⟩ := hl
  unfold rjust at hcl
  rcases List.mem_append.mp hcl with h | h
  · rw [List.eq_of_mem_replicate h]
    decide
  · exact ne_newline_of_not_space (pyIsSpace_of_isDigit (natToChars_digits v c h))

theorem nodeLine_no_newline (r : NodeRow) : ∀ c ∈ nodeLine r, c ≠ '\n' := by
  intro c hc
  rw [nodeLine_decomp r] at hc
  rcases List.mem_append.mp hc with h | h
  · rw [List.eq_of_mem_replicate h]
    decide
  rcases List.mem_append.mp h with h | h
  · exact ne_newline_of_not_space (pyIsSpace_of_isDigit (natToChars_digits _ c h))
  rcases List.mem_cons.mp h with rfl | h
  · decide
  rcases List.mem_append.mp h with h | h
  · exact ne_newline_of_not_space (floatClass_not_space (sciChars_class r.x c h))
  rcases List.mem_cons.mp h with rfl | h
  · decide
  rcases List.mem_append.mp h with h | h
  · exact ne_newline_of_not_space (floatClass_not_space (sciChars_class r.y c h))
  rcases List.mem_cons.mp h with rfl | h
  · decide
  rcases List.mem_append.mp h with h | h
  · exact ne_newline_of_not_space (floatClass_not_space (sciChars_class r.z c h))
  rcases List.mem_append.mp h with h | h
  · rw [List.eq_of_mem_replicate h]
    decide
  rcases List.mem_append.mp h with h | h
  · exact ne_newline_of_not_space (pyIsSpace_of_isDigit (natToChars_digits _ c h))
  rcases List.mem_append.mp h with h | h
  · rw [List.eq_of_mem_replicate h]
    decide
  · exact ne_newline_of_not_space (pyIsSpace_of_isDigit (natToChars_digits _ c h))

theorem extractGo_data_step (kw l : List Char) (rest : List (List Char))
    (d : Char) (t : List Char) (hst : pyStrip l = d :: t) (hd : d ≠ '*') :
    extractGo kw (l :: rest) true = l :: extractGo kw rest true ∧
    extractGo kw (l :: rest) false = extractGo kw rest false := by
  have h1 : leadsWith ['*'] (pyStrip l) = false := by
    rw [hst, leadsWith_single]
    exact decide_eq_false (fun h => hd h.symm)
  have h2 : (pyStrip l).isEmpty = false := by
    rw [hst]
    rfl
  constructor <;> simp [extractGo, h1, h2]

theorem extractGo_header_step (kw l : List Char) (rest : List (List Char))
    (b reading : Bool) (hs : leadsWith ['*'] (pyStrip l) = true)
    (hb : leadsWith kw (toUpperL (pyStrip l)) = b) :
    extractGo kw (l :: rest) reading = extractGo kw rest b := by
  simp [extractGo, hs, hb]

theorem extractGo_collect (kw : List Char) : ∀ (ls rest : List (List Char)),
    (∀ l ∈ ls, ∃ d t, pyStrip l = d :: t ∧ d ≠ '*') →
    extractGo kw (ls ++ rest) true = ls ++ extractGo kw rest true := by
  intro ls
  induction ls with
  | nil => intro rest _; rfl
  | cons l ls' ih =>
    intro rest h
    obtain ⟨d, t, hst, hd⟩ := h l (List.mem_cons_self l ls')
    rw [List.cons_append,
      (extractGo_data_step kw l (ls' ++ rest) d t hst hd).1,
      ih rest (fun l' h' => h l' (List.mem_cons_of_mem _ h')), List.cons_append]

theorem extractGo_skip (kw : List Char) : ∀ (ls rest : List (List Char)),
    (∀ l ∈ ls, ∃ d t, pyStrip l = d :: t ∧ d ≠ '*') →
    extractGo kw (ls ++ rest) false = extractGo kw rest false := by
  intro ls
  induction ls with
  | nil => intro rest _; rfl
  | cons l ls' ih =>
    intro rest h
    obtain ⟨d, t, hst, hd⟩ := h l (List.mem_cons_self l ls')
    rw [List.cons_append,
      (extractGo_data_step kw l (ls' ++ rest) d t hst hd).2,
      ih rest (fun l' h' => h l' (List.mem_cons_of_mem _ h'))]

theorem extract_format (nodeSec : List NodeRow) (elemSec : List (List ℕ))
    (hel : ∀ row ∈ elemSec.map elemLine,
      ∃ d t, pyStrip row = d :: t ∧ d ≠ '*') :
    extract (fileChars (format_sections_into_file nodeSec elemSec)) hdrNode =
      nodeSec.map nodeLine ∧
    extract (fileChars (format_sections_into_file nodeSec elemSec)) hdrElem =
      elemSec.map elemLine := by
  have hnl : ∀ l ∈ nodeSec.map nodeLine,
      ∃ d t, pyStrip l = d :: t ∧ d ≠ '*' := by
    intro l hl
    obtain ⟨r, _, rfl⟩ := List.mem_map.mp hl
    obtain ⟨d, t, h1, h2⟩ := pyStrip_nodeLine_head r
    exact ⟨d, t, h1, digit_ne_star h2⟩
  have hform : format_sections_into_file nodeSec elemSec =
      hdrNode :: (nodeSec.map nodeLine ++
        (hdrElem :: (elemSec.map elemLine ++ [hdrEnd]))) := by
    simp [format_sections_into_file]
  have hlines :
      pySplitlines (fileChars (format_sections_into_file nodeSec elemSec)) =
      hdrNode :: (nodeSec.map nodeLine ++
        (hdrElem :: (elemSec.map elemLine ++ [hdrEnd]))) := by
    rw [hform]
    apply pySplitlines_fileChars
    intro l hl
    rcases List.mem_cons.mp hl with rfl | hl
    · decide
    rcases List.mem_append.mp hl with h | h
    · obtain ⟨r, _, rfl⟩ := List.mem_map.mp h
      exact nodeLine_no_newline r
    rcases List.mem_cons.mp h with rfl | h
    · decide
    rcases List.mem_append.mp h with h | h
    · obtain ⟨row, _, rfl⟩ := List.mem_map.mp h
      exact elemLine_no_newline row
    · rcases List.mem_singleton.mp h with rfl
      decide
  have c1 : leadsWith ['*'] (pyStrip hdrNode) = true := by decide
  have c2 : leadsWith hdrNode (toUpperL (pyStrip hdrNode)) = true := by decide
  have c3 : leadsWith hdrElem (toUpperL (pyStrip hdrNode)) = false := by decide
  have c4 : leadsWith ['*'] (pyStrip hdrElem) = true := by decide
  have c5 : leadsWith hdrNode (toUpperL (pyStrip hdrElem)) = false := by decide
  have c6 : leadsWith hdrElem (toUpperL (pyStrip hdrElem)) = true := by decide
  have c7 : leadsWith ['*'] (pyStrip hdrEnd) = true := by decide
  have c8 : leadsWith hdrNode (toUpperL (pyStrip hdrEnd)) = false := by decide
  have c9 : leadsWith hdrElem (toUpperL (pyStrip hdrEnd)) = false := by decide
  constructor
  · unfold extract
    rw [hlines]
    rw [extractGo_header_step hdrNode hdrNode _ true false c1 c2]
    rw [extractGo_collect hdrNode (nodeSec.map nodeLine) _ hnl]
    rw [extractGo_header_step hdrNode hdrElem _ false true c4 c5]
    rw [extractGo_skip hdrNode (elemSec.map elemLine) _ hel]
    rw [extractGo_header_step hdrNode hdrEnd [] false false c7 c8]
    simp
    rfl
  · unfold extract
    rw [hlines]
    rw [extractGo_header_step hdrElem hdrNode _ false false c1 c3]
    rw [extractGo_skip hdrElem (nodeSec.map nodeLine) _ hnl]
    rw [extractGo_header_step hdrElem hdrElem _ true false c4 c6]
    rw [extractGo_collect hdrElem (elemSec.map elemLine) _ hel]
    rw [extractGo_header_step hdrElem hdrEnd [] false true c7 c9]
    simp
    rfl

/-! ## Node-line regex matching lemmas -/

theorem list_isEmpty_false {α : Type} {u : List α} (h : u ≠ []) :
    u.isEmpty = false := by
  cases u with
  | nil => exact absurd rfl h
  | cons a t => rfl

theorem munch_eq {p : Char → Bool} (u v : List Char)
    (hu : ∀ c ∈ u, p c = true) (hne : u ≠ [])
    (hv : ∀ c cs, v = c :: cs → p c = false) :
    munch p (u ++ v) = some (u, v) := by
  obtain ⟨h1, h2⟩ := takeWhile_append_eq u v hu hv
  simp [munch, h1, h2, list_isEmpty_false hne]

theorem munch_all {p : Char → Bool} (u : List Char)
    (hu : ∀ c ∈ u, p c = true) (hne : u ≠ []) :
    munch p u = some (u, []) := by
  obtain ⟨h1, h2⟩ := takeWhile_all u hu
  simp [munch, h1, h2, list_isEmpty_false hne]

theorem sciChars_ne_nil (x : ℚ) : sciChars x ≠ [] := by
  by_cases hx : x = 0
  · subst hx
    decide
  · simp [sciChars, hx]

theorem sciChars_head_cond (x : ℚ) :
    ∃ c t, sciChars x = c :: t ∧ isFloatClass c = true := by
  cases hsx : sciChars x with
  | nil => exact absurd hsx (sciChars_ne_nil x)
  | cons c t =>
    refine ⟨c, t, rfl, ?_⟩
    apply sciChars_class x
    rw [hsx]
    exact List.mem_cons_self _ _

theorem matchNodeLine_shape (s : List Char)
    (nid sx sy sz tcds rcds : List Char) (mT mR : ℕ)
    (hnid : ∀ c ∈ nid, c.isDigit = true) (hnid0 : nid ≠ [])
    (htc : ∀ c ∈ tcds, c.isDigit = true) (htc0 : tcds ≠ [])
    (hrc : ∀ c ∈ rcds, c.isDigit = true) (hrc0 : rcds ≠ [])
    (hsx : ∀ c ∈ sx, isFloatClass c = true) (hsx0 : sx ≠ [])
    (hsy : ∀ c ∈ sy, isFloatClass c = true) (hsy0 : sy ≠ [])
    (hsz : ∀ c ∈ sz, isFloatClass c = true) (hsz0 : sz ≠ [])
    (hdw : s.dropWhile pyIsSpace =
      nid ++ (' ' :: (sx ++ (' ' :: (sy ++ (' ' :: (sz ++ (' ' ::
        (List.replicate mT ' ' ++ (tcds ++ (' ' ::
          (List.replicate mR ' ' ++ rcds)))))))))))) :
    matchNodeLine s = some ⟨nid, sx, sy, sz, tcds, rcds⟩ := by
  have hspc : ∀ c ∈ (' ' :: List.replicate mT ' '), pyIsSpace c = true := by
    intro c hc
    rcases List.mem_cons.mp hc with rfl | hc
    · rfl
    · rw [List.eq_of_mem_replicate hc]
      rfl
  have hspc' : ∀ c ∈ (' ' :: List.replicate mR ' '), pyIsSpace c = true := by
    intro c hc
    rcases List.mem_cons.mp hc with rfl | hc
    · rfl
    · rw [List.eq_of_mem_replicate hc]
      rfl
  obtain ⟨cx, tx, hxe, hcx⟩ : ∃ c t, sx = c :: t ∧ isFloatClass c = true := by
    cases sx with
    | nil => exact absurd rfl hsx0
    | cons c t => exact ⟨c, t, rfl, hsx c (List.mem_cons_self c t)⟩
  obtain ⟨cy, ty, hye, hcy⟩ : ∃ c t, sy = c :: t ∧ isFloatClass c = true := by
    cases sy with
    | nil => exact absurd rfl hsy0
    | cons c t => exact ⟨c, t, rfl, hsy c (List.mem_cons_self c t)⟩
  obtain ⟨cz, tz, hze, hcz⟩ : ∃ c t, sz = c :: t ∧ isFloatClass c = true := by
    cases sz with
    | nil => exact absurd rfl hsz0
    | cons c t => exact ⟨c, t, rfl, hsz c (List.mem_cons_self c t)⟩
  obtain ⟨dT, tT, hTe, hdT⟩ : ∃ c t, tcds = c :: t ∧ c.isDigit = true := by
    cases tcds with
    | nil => exact absurd rfl htc0
    | cons c t => exact ⟨c, t, rfl, htc c (List.mem_cons_self c t)⟩
  obtain ⟨dR, tR, hRe, hdR⟩ : ∃ c t, rcds = c :: t ∧ c.isDigit = true := by
    cases rcds with
    | nil => exact absurd rfl hrc0
    | cons c t => exact ⟨c, t, rfl, hrc c (List.mem_cons_self c t)⟩
  have m1 : munch Char.isDigit (nid ++ (' ' :: (sx ++ (' ' :: (sy ++ (' ' ::
      (sz ++ (' ' :: (List.replicate mT ' ' ++ (tcds ++ (' ' ::
        (List.replicate mR ' ' ++ rcds)))))))))))) =
      some (nid, ' ' :: (sx ++ (' ' :: (sy ++ (' ' :: (sz ++ (' ' ::
        (List.replicate mT ' ' ++ (tcds ++ (' ' ::
          (List.replicate mR ' ' ++ rcds))))))))))) :=
    munch_eq _ _ hnid hnid0 (fun c cs h => by cases h; decide)
  have m2 : munch pyIsSpace (' ' :: (sx ++ (' ' :: (sy ++ (' ' :: (sz ++
      (' ' :: (List.replicate mT ' ' ++ (tcds ++ (' ' ::
        (List.replicate mR ' ' ++ rcds))))))))))) =
      some ([' '], sx ++ (' ' :: (sy ++ (' ' :: (sz ++ (' ' ::
        (List.replicate mT ' ' ++ (tcds ++ (' ' ::
          (List.replicate mR ' ' ++ rcds)))))))))) := by
    rw [show (' ' :: (sx ++ (' ' :: (sy ++ (' ' :: (sz ++ (' ' ::
        (List.replicate mT ' ' ++ (tcds ++ (' ' ::
          (List.replicate mR ' ' ++ rcds)))))))))) : List Char) =
      [' '] ++ (sx ++ (' ' :: (sy ++ (' ' :: (sz ++ (' ' ::
        (List.replicate mT ' ' ++ (tcds ++ (' ' ::
          (List.replicate mR ' ' ++ rcds)))))))))) from rfl]
    refine munch_eq _ _ (by intro c hc; rcases List.mem_singleton.mp hc with rfl; rfl)
      (by simp) ?_
    intro c cs h
    rw [hxe, List.cons_append] at h
    cases h
    exact floatClass_not_space hcx
  have m3 : munch isFloatClass (sx ++ (' ' :: (sy ++ (' ' :: (sz ++ (' ' ::
      (List.replicate mT ' ' ++ (tcds ++ (' ' ::
        (List.replicate mR ' ' ++ rcds)))))))))) =
      some (sx, ' ' :: (sy ++ (' ' :: (sz ++ (' ' ::
        (List.replicate mT ' ' ++ (tcds ++ (' ' ::
          (List.replicate mR ' ' ++ rcds))))))))) :=
    munch_eq _ _ hsx hsx0 (fun c cs h => by cases h; decide)
  have m4 : munch pyIsSpace (' ' :: (sy ++ (' ' :: (sz ++ (' ' ::
      (List.replicate mT ' ' ++ (tcds ++ (' ' ::
        (List.replicate mR ' ' ++ rcds))))))))) =
      some ([' '], sy ++ (' ' :: (sz ++ (' ' ::
        (List.replicate mT ' ' ++ (tcds ++ (' ' ::
          (List.replicate mR ' ' ++ rcds)))))))) := by
    rw [show (' ' :: (sy ++ (' ' :: (sz ++ (' ' ::
        (List.replicate mT ' ' ++ (tcds ++ (' ' ::
          (List.replicate mR ' ' ++ rcds)))))))) : List Char) =
      [' '] ++ (sy ++ (' ' :: (sz ++ (' ' ::
        (List.replicate mT ' ' ++ (tcds ++ (' ' ::
          (List.replicate mR ' ' ++ rcds)))))))) from rfl]
    refine munch_eq _ _ (by intro c hc; rcases List.mem_singleton.mp hc with rfl; rfl)
      (by simp) ?_
    intro c cs h
    rw [hye, List.cons_append] at h
    cases h
    exact floatClass_not_space hcy
  have m5 : munch isFloatClass (sy ++ (' ' :: (sz ++ (' ' ::
      (List.replicate mT ' ' ++ (tcds ++ (' ' ::
        (List.replicate mR ' ' ++ rcds)))))))) =
      some (sy, ' ' :: (sz ++ (' ' :: (List.replicate mT ' ' ++ (tcds ++
        (' ' :: (List.replicate mR ' ' ++ rcds))))))) :=
    munch_eq _ _ hsy hsy0 (fun c cs h => by cases h; decide)
  have m6 : munch pyIsSpace (' ' :: (sz ++ (' ' ::
      (List.replicate mT ' ' ++ (tcds ++ (' ' ::
        (List.replicate mR ' ' ++ rcds))))))) =
      some ([' '], sz ++ (' ' :: (List.replicate mT ' ' ++ (tcds ++
        (' ' :: (List.replicate mR ' ' ++ rcds)))))) := by
    rw [show (' ' :: (sz ++ (' ' :: (List.replicate mT ' ' ++ (tcds ++
        (' ' :: (List.replicate mR ' ' ++ rcds)))))) : List Char) =
      [' '] ++ (sz ++ (' ' :: (List.replicate mT ' ' ++ (tcds ++
        (' ' :: (List.replicate mR ' ' ++ rcds)))))) from rfl]
    refine munch_eq _ _ (by intro c hc; rcases List.mem_singleton.mp hc with rfl; rfl)
      (by simp) ?_
    intro c cs h
    rw [hze, List.cons_append] at h
    cases h
    exact floatClass_not_space hcz
  have m7 : munch isFloatClass (sz ++ (' ' ::
      (List.replicate mT ' ' ++ (tcds ++ (' ' ::
        (List.replicate mR ' ' ++ rcds)))))) =
      some (sz, ' ' :: (List.replicate mT ' ' ++ (tcds ++ (' ' ::
        (List.replicate mR ' ' ++ rcds))))) :=
    munch_eq _ _ hsz hsz0 (fun c cs h => by cases h; decide)
  have m8 : munch pyIsSpace (' ' :: (List.replicate mT ' ' ++ (tcds ++
      (' ' :: (List.replicate mR ' ' ++ rcds))))) =
      some (' ' :: List.replicate mT ' ', tcds ++ (' ' ::
        (List.replicate mR ' ' ++ rcds))) := by
    rw [show (' ' :: (List.replicate mT ' ' ++ (tcds ++ (' ' ::
        (List.replicate mR ' ' ++ rcds)))) : List Char) =
      (' ' :: List.replicate mT ' ') ++ (tcds ++ (' ' ::
        (List.replicate mR ' ' ++ rcds))) from by simp]
    refine munch_eq _ _ hspc (by simp) ?_
    intro c cs h
    rw [hTe, List.cons_append] at h
    cases h
    exact pyIsSpace_of_isDigit hdT
  have m9 : munch Char.isDigit (tcds ++ (' ' ::
      (List.replicate mR ' ' ++ rcds))) =
      some (tcds, ' ' :: (List.replicate mR ' ' ++ rcds)) :=
    munch_eq _ _ htc htc0 (fun c cs h => by cases h; decide)
  have m10 : munch pyIsSpace (' ' :: (List.replicate mR ' ' ++ rcds)) =
      some (' ' :: List.replicate mR ' ', rcds) := by
    rw [show (' ' :: (List.replicate mR ' ' ++ rcds) : List Char) =
      (' ' :: List.replicate mR ' ') ++ rcds from by simp]
    refine munch_eq _ _ hspc' (by simp) ?_
    intro c cs h
    rw [hRe] at h
    cases h
    exact pyIsSpace_of_isDigit hdR
  have m11 : munch Char.isDigit rcds = some (rcds, []) :=
    munch_all _ hrc hrc0
  simp [matchNodeLine, hdw, m1, m2, m3, m4, m5, m6, m7, m8, m9, m10, m11]

theorem matchNodeLine_nodeLine (r : NodeRow) (htc : r.tc < 10 ^ 7)
    (hrc : r.rc < 10 ^ 7) :
    matchNodeLine (nodeLine r) = some ⟨natToChars r.nid, sciChars r.x,
      sciChars r.y, sciChars r.z, natToChars r.tc, natToChars r.rc⟩ := by
  have hlt : (natToChars r.tc).length ≤ 6 + 1 :=
    @natToChars_length_le r.tc 6 (by norm_num at htc ⊢; exact htc)
  have hlr : (natToChars r.rc).length ≤ 6 + 1 :=
    @natToChars_length_le r.rc 6 (by norm_num at hrc ⊢; exact hrc)
  obtain ⟨mT, hmT⟩ : ∃ m, 8 - (natToChars r.tc).length = m + 1 :=
    ⟨8 - (natToChars r.tc).length - 1, by omega⟩
  obtain ⟨mR, hmR⟩ : ∃ m, 8 - (natToChars r.rc).length = m + 1 :=
    ⟨8 - (natToChars r.rc).length - 1, by omega⟩
  have hdw : (nodeLine r).dropWhile pyIsSpace =
      natToChars r.nid ++ (' ' :: (sciChars r.x ++ (' ' :: (sciChars r.y ++
        (' ' :: (sciChars r.z ++ (' ' :: (List.replicate mT ' ' ++
          (natToChars r.tc ++ (' ' :: (List.replicate mR ' ' ++
            natToChars r.rc))))))))))) := by
    rw [nodeLine_decomp r, hmT, hmR, List.replicate_succ, List.replicate_succ]
    cases hnds : natToChars r.nid with
    | nil => exact absurd hnds (natToChars_ne_nil _)
    | cons dN tN =>
      have hdN : dN.isDigit = true := by
        apply natToChars_digits r.nid
        rw [hnds]
        exact List.mem_cons_self _ _
      simp only [List.cons_append]
      exact dropWhile_pad_stop (pyIsSpace_of_isDigit hdN)
  exact matchNodeLine_shape (nodeLine r) (natToChars r.nid) (sciChars r.x)
    (sciChars r.y) (sciChars r.z) (natToChars r.tc) (natToChars r.rc) mT mR
    (natToChars_digits _) (natToChars_ne_nil _)
    (natToChars_digits _) (natToChars_ne_nil _)
    (natToChars_digits _) (natToChars_ne_nil _)
    (sciChars_class _) (sciChars_ne_nil _)
    (sciChars_class _) (sciChars_ne_nil _)
    (sciChars_class _) (sciChars_ne_nil _) hdw

theorem parse_nodes_nodeLines : ∀ (rows : List NodeRow),
    (∀ r ∈ rows, r.tc < 10 ^ 7 ∧ r.rc < 10 ^ 7) →
    parse_nodes (rows.map nodeLine) = some (rows.map
      (fun r => ⟨r.nid, enc9 r.x, enc9 r.y, enc9 r.z, r.tc, r.rc⟩)) := by
  intro rows
  induction rows with
  | nil => intro _; rfl
  | cons r rs ih =>
    intro h
    obtain ⟨htc, hrc⟩ := h r (List.mem_cons_self r rs)
    have hm := matchNodeLine_nodeLine r htc hrc
    have hih := ih (fun r' h' => h r' (List.mem_cons_of_mem _ h'))
    simp only [parse_nodes] at hih ⊢
    simp only [List.map_cons, List.filterMap_cons, hm]
    simp only [traverseOpt, pyFloat_sciChars, parseNat_natToChars, hih]

/-! ## Row shapes of the generated sections -/

theorem traverseOpt_some_length {f : α → Option β} :
    ∀ {l : List α} {bs : List β}, traverseOpt f l = some bs →
      bs.length = l.length := by
  intro l
  induction l with
  | nil =>
    intro bs h
    injection h with h'
    rw [← h']
    rfl
  | cons a as ih =>
    intro bs h
    unfold traverseOpt at h
    rcases ha : f a with _ | b <;> rw [ha] at h
    · cases h
    · rcases hr : traverseOpt f as with _ | cs <;> rw [hr] at h
      · cases h
      · injection h with h'
        rw [← h']
        simp [ih hr]

theorem element_node_IDs_length {m : (ℤ × ℤ × ℤ) → Option ℕ} {i j k : ℤ}
    {l : List ℕ} (h : element_node_IDs m i j k = some l) : l.length = 8 := by
  rw [element_node_IDs_eq_traverseOpt] at h
  rw [traverseOpt_some_length h]
  rfl

theorem element_bodies_row_length {m : (ℤ × ℤ × ℤ) → Option ℕ}
    {A B C D E F G H : ℤ} {nocut : Bool} {row : List ℕ}
    (hrow : row ∈ element_bodies m A B C D E F G H nocut) :
    row.length = 9 := by
  have hlen : ∀ (part : ℕ) (i j k : ℤ),
      (element_node_IDs m i j k).map (fun ns => part :: ns) = some row →
      row.length = 9 := by
    intro part i j k heq
    rcases Option.map_eq_some'.mp heq with ⟨ns, hns, hr⟩
    have h8 : ns.length = 8 := element_node_IDs_length hns
    rw [← hr]
    simp [h8]
  unfold element_bodies at hrow
  rcases List.mem_append.mp hrow with h1 | h4
  rcases List.mem_append.mp h1 with h2 | h3
  rcases List.mem_append.mp h2 with h5 | h6
  · obtain ⟨cell, _, heq⟩ := List.mem_filterMap.mp h5
    exact hlen part_expl cell.1 cell.2.1 cell.2.2 heq
  · obtain ⟨cell, _, heq⟩ := List.mem_filterMap.mp h6
    exact hlen part_nonexpl cell.1 cell.2.1 cell.2.2 heq
  · cases nocut with
    | true =>
      rw [if_pos rfl] at h3
      obtain ⟨cell, _, heq⟩ := List.mem_filterMap.mp h3
      exact hlen part_nonexpl cell.1 cell.2.1 cell.2.2 heq
    | false =>
      rw [if_neg (by simp)] at h3
      obtain ⟨z, _, h3a⟩ := List.mem_flatMap.mp h3
      obtain ⟨y, _, h3b⟩ := List.mem_flatMap.mp h3a
      obtain ⟨x, _, heq⟩ := List.mem_filterMap.mp h3b
      exact hlen part_nonexpl x y z heq
  · split_ifs at h4 with hc
    · obtain ⟨cell, _, heq⟩ := List.mem_filterMap.mp h4
      exact hlen part_nonexpl cell.1 cell.2.1 cell.2.2 heq
    · cases h4

theorem snd_mem_of_mem_enumFrom :
    ∀ {n : ℕ} {l : List α} {p : ℕ × α}, p ∈ List.enumFrom n l → p.2 ∈ l := by
  intro n l
  induction l generalizing n with
  | nil => intro p h; cases h
  | cons a t ih =>
    intro p h
    rcases List.mem_cons.mp h with rfl | h
    · exact List.mem_cons_self a t
    · exact List.mem_cons_of_mem a (ih h)

theorem generate_elements_row_length (nodes : List NodeRow) (es : ℚ)
    (outer expl cutout coff : Q3) :
    ∀ row ∈ generate_elements nodes es outer expl cutout coff,
      row.length = 10 := by
  intro row hrow
  unfold generate_elements at hrow
  rcases List.mem_map.mp hrow with ⟨p, hp, rfl⟩
  have hb := snd_mem_of_mem_enumFrom hp
  rw [List.length_cons, element_bodies_row_length hb]

theorem add_constraints_bounds (nodes : List (ℕ × Q3)) (outer cutout coff : Q3)
    (fixed : List Q3) :
    ∀ r ∈ add_constraints nodes outer cutout coff fixed,
      r.tc < 10 ^ 7 ∧ r.rc < 10 ^ 7 := by
  intro r hr
  unfold add_constraints at hr
  rcases List.mem_map.mp hr with ⟨n, _, rfl⟩
  constructor
  · show tc_of outer.1 outer.2.1 (eff_yc outer cutout coff)
      (eff_xo outer cutout coff) fixed n.2 < 10 ^ 7
    unfold tc_of
    split_ifs <;> norm_num
  · show (7 : ℕ) < 10 ^ 7
    norm_num

/-- C1: for every domain specification that passes the divisibility check
(`generate_nodes` returns a node list), encoding the constrained node
section and the element section with `format_sections_into_file` and then
extracting and parsing the text with `extract`, `parse_nodes` and
`parse_elements` reproduces the tables exactly: node IDs, `tc` and `rc`
exactly, coordinates up to the encoded 9-significant-digit precision
(`enc9`), and element rows (element ID, part ID and the 8 connectivity
node IDs) exactly, in the same row order.  The fixed-width element format
presumes every integer field fits its 8-character column with a leading
separator, i.e. is below `10^7`; `tc`/`rc` satisfy this automatically
(they are at most 7), the element-row entries carry it as the stated
hypothesis. -/
theorem c1_roundtrip (es : ℚ) (outer expl cutout coff : Q3) (fixed : List Q3)
    (ns : List (ℕ × Q3)) (nodeSec : List NodeRow) (elemSec : List (List ℕ))
    (hgen : generate_nodes es outer expl cutout coff = some ns)
    (hnode : nodeSec = add_constraints ns outer cutout coff fixed)
    (helem : elemSec = generate_elements nodeSec es outer expl cutout coff)
    (hw : ∀ row ∈ elemSec, ∀ v ∈ row, v < 10 ^ 7) :
    parse_nodes (extract (fileChars (format_sections_into_file nodeSec
        elemSec)) hdrNode) =
      some (nodeSec.map (fun r => ⟨r.nid, enc9 r.x, enc9 r.y, enc9 r.z,
        r.tc, r.rc⟩)) ∧
    parse_elements (extract (fileChars (format_sections_into_file nodeSec
        elemSec)) hdrElem) = elemSec := by
  have hrow10 : ∀ row ∈ elemSec, row.length = 10 := by
    rw [helem]
    exact generate_elements_row_length nodeSec es outer expl cutout coff
  have hel : ∀ l ∈ elemSec.map elemLine,
      ∃ d t, pyStrip l = d :: t ∧ d ≠ '*' := by
    intro l hl
    obtain ⟨row, hrow, rfl⟩ := List.mem_map.mp hl
    cases hr : row with
    | nil =>
      rw [hr] at hrow
      have := hrow10 [] hrow
      simp at this
    | cons v r' =>
      obtain ⟨d, t, h1, h2⟩ := pyStrip_elemLine_head v r'
      exact ⟨d, t, h1, digit_ne_star h2⟩
  obtain ⟨hx1, hx2⟩ := extract_format nodeSec elemSec hel
  constructor
  · rw [hx1]
    apply parse_nodes_nodeLines
    intro r hr
    rw [hnode] at hr
    exact add_constraints_bounds ns outer cutout coff fixed r hr
  · rw [hx2]
    apply parse_elements_elemLines
    intro rr hrr
    exact ⟨hrow10 rr hrr, hw rr hrr⟩

theorem c1_roundtrip_witness :
    parse_nodes (extract (fileChars (format_sections_into_file sc_nodeSec
        sc_elemSec)) hdrNode) =
      some (sc_nodeSec.map (fun r => ⟨r.nid, enc9 r.x, enc9 r.y, enc9 r.z,
        r.tc, r.rc⟩)) ∧
    parse_elements (extract (fileChars (format_sections_into_file sc_nodeSec
        sc_elemSec)) hdrElem) = sc_elemSec :=
  c1_roundtrip 1 (2, 2, 1) (1, 1, 1) (0, 0, 0) (0, 0, 0) [(0, 0, 0)] sc_ns
    sc_nodeSec sc_elemSec (by with_unfolding_all decide) rfl rfl
    (by with_unfolding_all decide)

end UndexSim
